import Mathlib

/-!
Verification of the GPT persona classifier (streaming/batch enrichment pipelines).

This file gives a shallow embedding of the Python sources:
  * `config.py`            — the tunable constants,
  * `parsing.py`           — `sanitize_job_title`, `determine_skip_reason`,
                             `parse_batch_output_jsonl`, `fuzzy_match_invalid_personas`,
  * `llm_client.py`        — `extract_retry_after_seconds`,
  * `streaming_enricher.py`— `call_with_retries` and the multi-pass orchestrator `main`,
  * `batch_core.py`        — `_estimate_eta`,
and proves the frozen claims about them.

Modelling conventions:
  * machine floats used for break/backoff timing become exact rationals (ℚ);
  * a missing/NaN cell of a data frame becomes `Option`'s `none`; its
    Python string rendering follows each call site: pandas NaN is truthy
    and `str()`s to `"nan"`, so both `str(nan or "")` and `str(nan)` yield
    `"nan"`, while a genuine Python `None` argument (as in the pure
    `determine_skip_reason` contract) is falsy and yields `""`;
  * the LLM and the `difflib.get_close_matches` helper are external
    collaborators and enter as oracle parameters; the only fact used about
    `get_close_matches` is its contract that a returned match is drawn from
    the candidate list;
  * fallible Python code (uncaught exceptions) returns `Except`.
-/

namespace PersonaClassifier

/-! ## config.py -/

/-- config.py: `MAX_RETRIES = 5`. -/
def MAX_RETRIES : Nat := 5

/-- config.py: `INITIAL_BACKOFF = 2.0` (seconds, exact rational). -/
def INITIAL_BACKOFF : ℚ := 2

/-- config.py: `MAX_BACKOFF = 30.0` (seconds, exact rational). -/
def MAX_BACKOFF : ℚ := 30

/-- config.py: `MIN_CHUNK = 10`. -/
def MIN_CHUNK : Nat := 10

/-- config.py: `MAX_CHUNK = 250`. -/
def MAX_CHUNK : Nat := 250

/-- config.py: `MAX_PASSES = 3`. -/
def MAX_PASSES : Nat := 3

/-- config.py: `VALID_PERSONAS` (a Python `set` of nine strings; modelled as a
list, membership is what matters). -/
def VALID_PERSONAS : List String :=
  ["Executive Sponsor", "Economic Buyer", "Data Product Manager/Owner",
   "Data User", "Application Developer", "Real-time Specialist",
   "Operator/Systems Administrator", "Technical Decision Maker", "Not a target"]

/-- Python `str.strip()`: drop whitespace from both ends (structural model;
`String.trim` itself is not used since the embedding stays kernel-reducible).
-/
def pyStrip (s : String) : String :=
  ⟨((s.data.dropWhile Char.isWhitespace).reverse.dropWhile Char.isWhitespace).reverse⟩

/-- Python `str.lower()` (character-wise). -/
def lowerString (s : String) : String :=
  ⟨s.data.map Char.toLower⟩

/-- Python `str.startswith(p)` as a list-level prefix test. -/
def strStartsWith (p s : String) : Bool :=
  p.data.isPrefixOf s.data

/-! ## parsing.py: sanitize_job_title -/

/-- parsing.py `sanitize_job_title` body: `re.sub(",", " ", ·)` on the
character list — every comma becomes a space. -/
def sanitizeChars (l : List Char) : List Char :=
  l.map (fun c => if c = ',' then ' ' else c)

/-- parsing.py: `sanitize_job_title(title) = re.sub(",", " ", str(title or ""))`.
The argument may be `None` (modelled `none`); `str(title or "")` maps `None`
and `""` to `""` and any other string to itself. -/
def sanitize_job_title (title : Option String) : String :=
  ⟨sanitizeChars (title.getD "").data⟩

/-! ## parsing.py: determine_skip_reason -/

/-- parsing.py `determine_skip_reason`:
`persona = str(row.get("Persona", "") or "").strip()`; empty → "No LLM
response"; not in `VALID_PERSONAS` → "Invalid persona: <persona>"; else
accepted (`None`).  The row is represented by its (possibly missing)
"Persona" cell. -/
def determine_skip_reason (personaCell : Option String) : Option String :=
  let persona := pyStrip (personaCell.getD "")
  if persona = "" then some "No LLM response"
  else if persona ∈ VALID_PERSONAS then none
  else some ("Invalid persona: " ++ persona)

/-! ## batch_core.py: _estimate_eta -/

/-- Batch job metadata consumed by `_estimate_eta` (`batch_core.py`):
the `request_counts` fields and the two start timestamps, each possibly
absent. -/
structure BatchMeta where
  completed : Option Int
  failed : Option Int
  total : Option Int
  in_progress_at : Option Int
  started_at : Option Int

/-- batch_core.py: `total = int(rc.get("total") or (completed + failed))` —
Python `or` falls through on a missing *or zero* total. -/
def totalOf (t : Option Int) (completed failed : Int) : Int :=
  match t with
  | none => completed + failed
  | some v => if v = 0 then completed + failed else v

/-- batch_core.py: `in_prog = meta.get("in_progress_at") or meta.get("started_at")` —
Python `or`: a missing or zero `in_progress_at` falls through to
`started_at`. -/
def inProgOf (meta : BatchMeta) : Option Int :=
  match meta.in_progress_at with
  | some t => if t = 0 then meta.started_at else some t
  | none => meta.started_at

/-- batch_core.py `_estimate_eta(meta)` evaluated at wall-clock time `now`:
returns `(completed, total, eta)` with `eta = None` when the total is zero,
when no start timestamp is available (`if not in_prog`), or when the observed
rate `completed / max(1, now - in_prog)` is not positive; otherwise
`eta = max(0, total - completed) / rate`. -/
def estimate_eta (meta : BatchMeta) (now : Int) : Int × Int × Option ℚ :=
  let completed := meta.completed.getD 0
  let failed := meta.failed.getD 0
  let total := totalOf meta.total completed failed
  if total = 0 then (completed, total, none)
  else
    match inProgOf meta with
    | none => (completed, total, none)
    | some t =>
      if t = 0 then (completed, total, none)
      else
        let elapsed : Int := max 1 (now - t)
        let rate : ℚ := (completed : ℚ) / (elapsed : ℚ)
        let remaining : Int := max 0 (total - completed)
        if rate ≤ 0 then (completed, total, none)
        else (completed, total, some ((remaining : ℚ) / rate))

/-! ## llm_client.py: extract_retry_after_seconds

The Python uses `re.search(r"try again in ([0-9]+(?:\.[0-9]+)?)s", msg)`.
Both digit runs of the pattern are greedy, and since `'s'` and `'.'` are not
digits no backtracking into a digit run can succeed, so the search is
equivalent to: at the leftmost position where the literal `"try again in "`
is followed by a maximal nonempty digit run, optionally a `'.'` plus a
maximal nonempty digit run, and then the letter `'s'`, return that decimal
number. -/

/-- Maximal digit prefix of a character list, with the remainder. -/
def digitSpan : List Char → List Char × List Char
  | [] => ([], [])
  | c :: rest =>
    if c.isDigit then
      let p := digitSpan rest
      (c :: p.1, p.2)
    else ([], c :: rest)

/-- Value of a digit run as a natural number. -/
def digitsToNat (ds : List Char) : Nat :=
  ds.foldl (fun a c => 10 * a + (c.toNat - 48)) 0

/-- Attempt to match `"try again in ([0-9]+(\.[0-9]+)?)s"` at the head of the
character list, returning the captured number. -/
def retryAfterHere (l : List Char) : Option ℚ :=
  let pre := "try again in ".data
  if pre.isPrefixOf l then
    let s1 := digitSpan (l.drop pre.length)
    if s1.1.isEmpty then none
    else
      match s1.2 with
      | 's' :: _ => some (digitsToNat s1.1 : ℚ)
      | '.' :: r2 =>
        let s2 := digitSpan r2
        if s2.1.isEmpty then none
        else
          match s2.2 with
          | 's' :: _ =>
            some ((digitsToNat s1.1 : ℚ) + (digitsToNat s2.1 : ℚ) / (10 : ℚ) ^ s2.1.length)
          | _ => none
      | _ => none
  else none

/-- Leftmost match of the retry-after pattern (`re.search` scans positions
left to right). -/
def retryAfterSearch : List Char → Option ℚ
  | [] => none
  | c :: rest =>
    match retryAfterHere (c :: rest) with
    | some q => some q
    | none => retryAfterSearch rest

/-- llm_client.py: `extract_retry_after_seconds(msg)` — the captured number,
or `0.0` when the pattern does not occur. -/
def extract_retry_after_seconds (msg : String) : ℚ :=
  (retryAfterSearch msg.data).getD 0

/-! ## streaming_enricher.py: call_with_retries

The LLM endpoint is an external collaborator: a run of the retry loop is
driven by an oracle `outcomes : Nat → CallOutcome` giving, for each attempt
number, either the (already parsed) rows of a successful response or the
message and jitter draw of a failed attempt.  Responses are modelled at the
granularity the pipeline consumes them: a successful reply is the list of
parsed output rows (`parse_llm_csv` is pandas CSV plumbing; an empty reply
string corresponds to the empty row list). -/

/-- A row of the parsed LLM output table `formatted`
(columns "Prospect Id", "Job Title", "Persona", "Persona Certainty";
the job-title column plays no role in the claims' bookkeeping and is
omitted; a missing cell is `none`). -/
structure FRow where
  pid : String
  persona : Option String
  certainty : Option String
deriving DecidableEq, Repr

/-- Outcome of one attempt of `ask_chat_session`: a successful response
(parsed rows) or a raised transient error with message `msg`, the attempt's
`random.uniform(0, 1.0)` jitter draw being `jitter`. -/
inductive CallOutcome where
  | ok (rows : List FRow)
  | err (msg : String) (jitter : ℚ)
deriving DecidableEq

/-- Bool-valued infix test (`needle in haystack` on Python strings). -/
def charsInfix (needle hay : List Char) : Bool :=
  hay.tails.any (fun t => needle.isPrefixOf t)

/-- streaming_enricher.py line 88: `"rate limit" in msg.lower() or "429" in msg`. -/
def rateLimitSignal (msg : String) : Bool :=
  charsInfix "rate limit".data (lowerString msg).data || charsInfix "429".data msg.data

/-- streaming_enricher.py lines 90-96: on a rate-limit signal the candidate
size is `max(MIN_CHUNK, math.floor(local_chunk / 2))` and is adopted only
when it is strictly smaller than the current size. -/
def shrinkChunk (c : Nat) : Nat :=
  let newSize := max MIN_CHUNK (c / 2)
  if newSize < c then newSize else c

/-- Trace of one run of `call_with_retries`: the final result (`.error`
carries `last_err`'s message, `none` when no attempt ran), the sleep
performed after each failed attempt, and the chunk size after each failed
attempt. -/
structure RetryRun where
  result : Except (Option String) (List FRow × Nat)
  sleeps : List ℚ
  chunks : List Nat

/-- Body of the `for attempt in range(MAX_RETRIES)` loop of
`call_with_retries` (streaming_enricher.py lines 77-102); `fuel` counts the
attempts still allowed, `attempt` is the current attempt number.  On failure
the sleep is `max(server_wait, min(MAX_BACKOFF, INITIAL_BACKOFF * 2 **
attempt + jitter))` and the chunk size shrinks only on a rate-limit
signature. -/
def callAux (outcomes : Nat → CallOutcome) :
    Nat → Nat → Nat → Option String → RetryRun
  | 0, _, _, lastErr => ⟨.error lastErr, [], []⟩
  | fuel + 1, attempt, chunk, _lastErr =>
    match outcomes attempt with
    | .ok rows => ⟨.ok (rows, chunk), [], []⟩
    | .err msg jitter =>
      let serverWait := extract_retry_after_seconds msg
      let backoff := min MAX_BACKOFF (INITIAL_BACKOFF * 2 ^ attempt + jitter)
      let sleepFor := max serverWait backoff
      let chunk' := if rateLimitSignal msg then shrinkChunk chunk else chunk
      let rest := callAux outcomes fuel (attempt + 1) chunk' (some msg)
      ⟨rest.result, sleepFor :: rest.sleeps, chunk' :: rest.chunks⟩

/-- streaming_enricher.py `call_with_retries(session, payload, chunk_size)`:
up to `MAX_RETRIES` attempts starting at attempt 0 with the given chunk
size; raises the last error when all attempts fail. -/
def call_with_retries (outcomes : Nat → CallOutcome) (chunk_size : Nat) : RetryRun :=
  callAux outcomes MAX_RETRIES 0 chunk_size none

/-! ## parsing.py: fuzzy_match_invalid_personas, and the shared
post-processing stage of streaming_enricher.py `main` (lines 221-254) -/

/-- A row of the merged table (`df.merge(formatted, on="Prospect Id",
how="left")` plus the computed "Skip Reason" column). -/
structure MRow where
  pid : String
  persona : Option String
  certainty : Option String
  skipReason : Option String
deriving DecidableEq, Repr

/-- Pandas left merge of the input id column with the parsed output table:
one output row per (left row, matching right row) pair, in left order; a
left row without matches yields a single row with missing right cells. -/
def mergeLeft (df : List String) (formatted : List FRow) : List MRow :=
  df.flatMap (fun pid =>
    let ms := formatted.filter (fun fr => fr.pid = pid)
    if ms = [] then [⟨pid, none, none, none⟩]
    else ms.map (fun fr => ⟨pid, fr.persona, fr.certainty, none⟩))

/-- Pandas `drop_duplicates(subset=[key], keep="first")`: keep the first row
for each key; `seen` accumulates the keys already kept. -/
def dedupeByAux {α : Type} (key : α → String) : List String → List α → List α
  | _, [] => []
  | seen, r :: rs =>
    if key r ∈ seen then dedupeByAux key seen rs
    else r :: dedupeByAux key (key r :: seen) rs

/-- Pandas `drop_duplicates(subset=[key], keep="first")`. -/
def dedupeBy {α : Type} (key : α → String) (l : List α) : List α :=
  dedupeByAux key [] l

/-- String rendering of the "Persona" cell in
`str(row.get("Persona", ""))` (parsing.py line 163): the `str` call has no
`or ""` guard, and a cell the left merge left unmatched holds pandas float
NaN, whose `str()` is `"nan"` — so a missing cell renders as `"nan"` and is
passed to the fuzzy matcher like any other string. -/
def personaStr (r : MRow) : String :=
  r.persona.getD "nan"

/-- parsing.py line 150: `skipped_df["Skip Reason"].astype(str).str.startswith("Invalid persona:")`
(pandas `astype(str)` renders a missing reason as `"nan"`, which does not
carry the prefix). -/
def invalidReason (r : MRow) : Bool :=
  strStartsWith "Invalid persona:" (r.skipReason.getD "nan")

/-- Loop of parsing.py lines 162-184 over the invalid-persona rows: a row
whose stripped persona is empty stays skipped; otherwise the fuzzy matcher
`cm` (modelling `get_close_matches(persona, list(VALID_PERSONAS), n=1,
cutoff=threshold/100)`, an external collaborator) either yields a correction
— the row's persona is replaced and its skip reason cleared — or the row
stays skipped.  Returns (corrected rows, still-invalid rows) in input
order. -/
def fuzzyLoop (cm : String → Option String) : List MRow → List MRow × List MRow
  | [] => ([], [])
  | r :: rs =>
    let rest := fuzzyLoop cm rs
    let p := pyStrip (personaStr r)
    if p = "" then (rest.1, r :: rest.2)
    else
      match cm p with
      | some m => (⟨r.pid, some m, r.certainty, none⟩ :: rest.1, rest.2)
      | none => (rest.1, r :: rest.2)

/-- parsing.py `fuzzy_match_invalid_personas(skipped_df)`: split off the
rows whose skip reason starts with "Invalid persona:", try to fuzzy-correct
each, and return (corrected, other-skipped ++ still-invalid); degenerate
inputs are returned unchanged. -/
def fuzzy_match_invalid_personas (cm : String → Option String)
    (skipped : List MRow) : List MRow × List MRow :=
  if skipped = [] then ([], skipped)
  else
    let invalid := skipped.filter (fun r => invalidReason r)
    let other := skipped.filter (fun r => !(invalidReason r))
    if invalid = [] then ([], skipped)
    else
      let lp := fuzzyLoop cm invalid
      (lp.1, other ++ lp.2)

/-- Final-persona membership filter of streaming_enricher.py line 247:
`final_df["Persona"].isin(VALID_PERSONAS)` — an exact, unstripped
membership test; a missing cell is not a member. -/
def personaIsValid (r : MRow) : Bool :=
  match r.persona with
  | some p => p ∈ VALID_PERSONAS
  | none => false

/-- `determine_skip_reason` as it is applied to a merged pandas row: a
persona cell the left merge left unmatched holds float NaN, which is
*truthy*, so `str(row.get("Persona", "") or "")` is `str(nan) = "nan"` — the
function sees the string `"nan"`, not an empty value. -/
def mergedSkipReason (cell : Option String) : Option String :=
  determine_skip_reason (some (cell.getD "nan"))

/-- streaming_enricher.py line 226-227: the left merge plus the computed
"Skip Reason" column (`merged.apply(determine_skip_reason, axis=1)`, with
missing merged cells rendered as pandas NaN). -/
def mergedOf (df : List String) (formatted : List FRow) : List MRow :=
  (mergeLeft df formatted).map
    (fun r => ⟨r.pid, r.persona, r.certainty, mergedSkipReason r.persona⟩)

/-- streaming_enricher.py lines 233-241: the fuzzy-correction stage — when
there are skipped rows and at least one is corrected, corrections join the
accepted side and the skipped side becomes the still-skipped rows; otherwise
both sides are unchanged. -/
def postStep (cm : String → Option String) (final0 skipped0 : List MRow) :
    List MRow × List MRow :=
  if skipped0 = [] then (final0, skipped0)
  else
    let fz := fuzzy_match_invalid_personas cm skipped0
    if fz.1 = [] then (final0, skipped0) else (final0 ++ fz.1, fz.2)

/-- streaming_enricher.py `main` lines 221-250 (post-processing): left-merge
input ids with the parsed table, compute skip reasons, split into accepted
and skipped, fuzzy-correct invalid personas, drop duplicate accepted ids
keeping the first, and keep only accepted rows whose persona is exactly in
`VALID_PERSONAS`.  Returns (accepted rows, skipped rows). -/
def postProcess (cm : String → Option String) (df : List String)
    (formatted : List FRow) : List MRow × List MRow :=
  let merged := mergedOf df formatted
  let final0 := merged.filter (fun r => r.skipReason.isNone)
  let skipped0 := merged.filter (fun r => r.skipReason.isSome)
  let step := postStep cm final0 skipped0
  ((dedupeBy MRow.pid step.1).filter (fun r => personaIsValid r), step.2)

/-! ## streaming_enricher.py: main — chunk dispatcher and multi-pass loop -/

/-- Validity test on a parsed output row,
`formatted["Persona"].isin(VALID_PERSONAS)` (line 209): exact membership, a
missing cell is not a member. -/
def frValid (fr : FRow) : Bool :=
  match fr.persona with
  | some p => p ∈ VALID_PERSONAS
  | none => false

/-- streaming_enricher.py lines 202-210: parse the cumulative results, drop
duplicate ids keeping the first, and collect the ids whose persona is valid
(`ok_ids`). -/
def okIdsOf (results : List (List FRow)) : Finset String :=
  (((dedupeBy FRow.pid results.flatten).filter (fun fr => frValid fr)).map
    (fun fr => fr.pid)).toFinset

/-- Result of one pass of the chunk dispatcher (the `while i < len(df_pass)`
loop, lines 160-199): the responses appended to `all_results`, the ids of
chunks whose retries were exhausted (`failed_ids`), the chunk size when the
pass ends, and the chunk size used at each call (`callChunks`). -/
structure PassOut where
  results : List (List FRow)
  failed : Finset String
  chunk : Nat
  callChunks : List Nat

/-- Chunk-dispatch loop of one pass (streaming_enricher.py lines 160-199):
slice `rows[i:min(i + chunk, len)]`, run `call_with_retries` (the oracle
`calls i` supplies that call's attempt outcomes), collect the response on
success (the updated chunk size persists for later chunks), or mark the
whole slice failed on exhausted retries.  `fuel` bounds the number of
iterations; the source loop advances `i` by at least one per iteration since
the chunk size never drops below `MIN_CHUNK ≥ 1`, so `fuel = rows.length`
suffices. -/
def dispatchAux (calls : Nat → Nat → CallOutcome) (rows : List String) :
    Nat → Nat → Nat → PassOut
  | 0, _, chunk => ⟨[], ∅, chunk, []⟩
  | fuel + 1, i, chunk =>
    if i < rows.length then
      let endI := min (i + chunk) rows.length
      let chunkIds := (rows.drop i).take (endI - i)
      let run := call_with_retries (calls i) chunk
      match run.result with
      | .ok rc =>
        let rest := dispatchAux calls rows fuel endI rc.2
        ⟨(if rc.1 = [] then rest.results else rc.1 :: rest.results),
         rest.failed, rest.chunk, chunk :: rest.callChunks⟩
      | .error _ =>
        let rest := dispatchAux calls rows fuel endI chunk
        ⟨rest.results, chunkIds.toFinset ∪ rest.failed, rest.chunk,
         chunk :: rest.callChunks⟩
    else ⟨[], ∅, chunk, []⟩

/-- One pass of the chunk dispatcher over `rows` starting with chunk size
`chunk0`. -/
def dispatchPass (calls : Nat → Nat → CallOutcome) (rows : List String)
    (chunk0 : Nat) : PassOut :=
  dispatchAux calls rows rows.length 0 chunk0

/-- Loop state of the multi-pass orchestrator: the remaining ids, the
current chunk size, and the accumulated raw results (`all_results`). -/
structure OrchState where
  remaining : Finset String
  chunk : Nat
  results : List (List FRow)

/-- Record of one executed pass: pass number, state before, dispatcher
output, the pass's `ok_ids`, and state after. -/
structure PassLog where
  passNo : Nat
  pre : OrchState
  dispatched : PassOut
  okIds : Finset String
  post : OrchState

/-- One pass of streaming_enricher.py `main` (lines 150-219): dispatch over
the rows whose id is still remaining, recompute `ok_ids` from the cumulative
results, update `remaining_ids := (remaining_ids - ok_ids) | failed_ids`,
and halve the chunk size (floored at `MIN_CHUNK`) when ids remain. -/
def passStep (calls : Nat → Nat → CallOutcome) (df : List String) (p : Nat)
    (st : OrchState) : PassLog :=
  let dfPass := df.filter (fun id => decide (id ∈ st.remaining))
  let out := dispatchPass calls dfPass st.chunk
  let results' := st.results ++ out.results
  let ok := okIdsOf results'
  let rem' := (st.remaining \ ok) ∪ out.failed
  let chunk' := if rem'.Nonempty then max MIN_CHUNK (out.chunk / 2) else out.chunk
  ⟨p, st, out, ok, ⟨rem', chunk', results'⟩⟩

/-- The `for p in range(1, MAX_PASSES + 1)` loop, breaking as soon as no ids
remain; `calls p` is the call oracle of pass `p`. -/
def runAux (calls : Nat → Nat → Nat → CallOutcome) (df : List String) :
    Nat → Nat → OrchState → OrchState × List PassLog
  | 0, _, st => (st, [])
  | fuel + 1, p, st =>
    if st.remaining = ∅ then (st, [])
    else
      let log := passStep (calls p) df p st
      let next := runAux calls df fuel (p + 1) log.post
      (next.1, log :: next.2)

/-- Multi-pass orchestrator (streaming_enricher.py lines 143-219): start with
all input ids remaining and chunk size `MAX_CHUNK`, run up to `MAX_PASSES`
passes. -/
def runPasses (calls : Nat → Nat → Nat → CallOutcome) (df : List String) :
    OrchState × List PassLog :=
  runAux calls df MAX_PASSES 1 ⟨df.toFinset, MAX_CHUNK, []⟩

/-- Whole streaming pipeline after input filtering: run the passes, then the
final parse (line 222-223: the cumulative results, *without* duplicate-id
dropping) and the shared post-processing.  Returns (accepted, skipped, final
orchestrator state). -/
def pipeline (calls : Nat → Nat → Nat → CallOutcome)
    (cm : String → Option String) (df : List String) :
    List MRow × List MRow × OrchState :=
  let run := runPasses calls df
  let pp := postProcess cm df run.1.results.flatten
  (pp.1, pp.2, run.1)

/-! ## parsing.py: parse_batch_output_jsonl

The input is modelled after `json.loads` of each non-blank line: a list of
JSON values.  Python dynamic typing is mirrored by a JSON value type;
operations that can raise an exception *not* caught by the source
(`.get` on a non-dict, `int()` on junk) return `Except`. -/

/-- JSON values (numbers restricted to integers; no claim involves
fractional JSON numbers). -/
inductive Json where
  | null
  | jbool (b : Bool)
  | jnum (n : Int)
  | jstr (s : String)
  | jarr (xs : List Json)
  | jobj (fields : List (String × Json))

/-- Dict lookup (`json.loads` yields unique keys per object). -/
def lookupField : List (String × Json) → String → Option Json
  | [], _ => none
  | (k, v) :: rest, key => if k = key then some v else lookupField rest key

/-- Python truthiness of a JSON value. -/
def pyTruthy : Json → Bool
  | .null => false
  | .jbool b => b
  | .jnum n => n != 0
  | .jstr s => s != ""
  | .jarr xs => !xs.isEmpty
  | .jobj fs => !fs.isEmpty

/-- Python `int()` applied to a string: optional surrounding whitespace,
optional sign, a nonempty digit run. -/
def parseIntStr (s : String) : Option Int :=
  let l := (pyStrip s).data
  match l with
  | '-' :: ds =>
    if !ds.isEmpty && ds.all (fun c => c.isDigit) then some (-(digitsToNat ds : Int))
    else none
  | '+' :: ds =>
    if !ds.isEmpty && ds.all (fun c => c.isDigit) then some (digitsToNat ds : Int)
    else none
  | ds =>
    if !ds.isEmpty && ds.all (fun c => c.isDigit) then some (digitsToNat ds : Int)
    else none

/-- Python `int()` on a JSON value; `none` models an uncaught
`TypeError`/`ValueError`. -/
def pyInt : Json → Option Int
  | .jnum n => some n
  | .jbool b => some (if b then 1 else 0)
  | .jstr s => parseIntStr s
  | _ => none

/-- Python `str()` of a JSON value (`None`/`True`/`False`, numbers, plain
strings; container rendering follows `repr` in shape — inner strings are
shown unquoted, which no claim depends on). -/
def pyStr : Json → String
  | .null => "None"
  | .jbool true => "True"
  | .jbool false => "False"
  | .jnum n => toString n
  | .jstr s => s
  | .jarr xs =>
    "[" ++ String.intercalate ", " (xs.attach.map (fun x => pyStr x.1)) ++ "]"
  | .jobj fs =>
    "\x7b" ++ String.intercalate ", "
      (fs.attach.map (fun x => x.1.1 ++ ": " ++ pyStr x.1.2)) ++ "\x7d"
decreasing_by
  · have h := List.sizeOf_lt_of_mem x.2
    simp only [Json.jarr.sizeOf_spec]
    omega
  · have h := List.sizeOf_lt_of_mem x.2
    obtain ⟨x, hx⟩ := x
    obtain ⟨a, b⟩ := x
    simp only [Prod.mk.sizeOf_spec] at h
    simp only [Json.jobj.sizeOf_spec]
    omega
/-- Python subscript `x[y]` with `KeyError`/`TypeError`/`IndexError`
collapsed to `none` (the source catches exactly these in the success-body
extraction). -/
def jsonIndex : Json → Json → Option Json
  | .jobj fs, .jstr k => lookupField fs k
  | .jarr xs, .jnum n =>
    let i : Int := if n < 0 then n + xs.length else n
    if 0 ≤ i ∧ i < xs.length then xs.get? i.toNat else none
  | .jstr s, .jnum n =>
    let i : Int := if n < 0 then n + s.length else n
    if 0 ≤ i ∧ i < s.length then
      (s.data.get? i.toNat).map (fun c => Json.jstr ⟨[c]⟩)
    else none
  | _, _ => none

/-- parsing.py lines 106-108: `resp["body"]["choices"][0]["message"]["content"]`,
with the caught `KeyError`/`TypeError`/`IndexError` as `none`. -/
def getContent (resp : Json) : Option Json :=
  (jsonIndex resp (.jstr "body")).bind (fun b =>
    (jsonIndex b (.jstr "choices")).bind (fun ch =>
      (jsonIndex ch (.jnum 0)).bind (fun c0 =>
        (jsonIndex c0 (.jstr "message")).bind (fun m =>
          jsonIndex m (.jstr "content")))))

/-- parsing.py line 102: `cid = str(obj.get("custom_id", ""))`. -/
def cidOf : Json → String
  | .jobj fs => pyStr ((lookupField fs "custom_id").getD (.jstr ""))
  | _ => ""

/-- Inner status code of a line as the source computes it
(`int(resp.get("status_code", 0) or 0)` on `resp = obj.get("response", {})`);
`none` when the computation would raise (non-dict line, non-dict response,
junk status value). -/
def innerStatus : Json → Option Int
  | .jobj fs =>
    match (lookupField fs "response").getD (.jobj []) with
    | .jobj rfs =>
      let sc := (lookupField rfs "status_code").getD (.jnum 0)
      pyInt (if pyTruthy sc then sc else .jnum 0)
    | _ => none
  | _ => none

/-- parsing.py lines 112-120 (error branch): `body = resp.get("body") or {}`
and `msg = body.get("error", {}).get("message")` with
`AttributeError`/`TypeError` caught as `msg = None`. -/
def errorBranchMsg (rfs : List (String × Json)) : Json :=
  let body0 := (lookupField rfs "body").getD .null
  let body := if pyTruthy body0 then body0 else .jobj []
  let msg : Option Json :=
    match body with
    | .jobj bfs =>
      match (lookupField bfs "error").getD (.jobj []) with
      | .jobj efs => lookupField efs "message"
      | _ => none
    | _ => none
  match msg with
  | some m => if pyTruthy m then m else body
  | none => body

/-- One iteration of the parse loop (parsing.py lines 98-120) over the
already-`json.loads`-ed line `obj`; the two accumulators are the `out` and
`errors` dicts (insertion modelled by prepending, lookup finds the latest
binding).  `.error` models an exception the source does not catch. -/
def processLine (out : List (String × Json)) (errs : List (String × String))
    (obj : Json) : Except String (List (String × Json) × List (String × String)) :=
  match obj with
  | .jobj fs =>
    let cid := pyStr ((lookupField fs "custom_id").getD (.jstr ""))
    match (lookupField fs "response").getD (.jobj []) with
    | .jobj rfs =>
      let sc := (lookupField rfs "status_code").getD (.jnum 0)
      match pyInt (if pyTruthy sc then sc else .jnum 0) with
      | none => .error "uncaught TypeError or ValueError in int(status_code)"
      | some status =>
        if status = 200 then
          match getContent (.jobj rfs) with
          | some c => .ok ((cid, c) :: out, errs)
          | none => .ok (out, (cid, "Malformed success body") :: errs)
        else
          .ok (out,
            (cid, "HTTP " ++ toString status ++ ": " ++ pyStr (errorBranchMsg rfs))
              :: errs)
    | _ => .error "uncaught AttributeError: response is not a dict"
  | _ => .error "uncaught AttributeError: line is not a dict"

/-- Parse loop over all lines, threading the two dicts. -/
def parseBatchAux : List Json → List (String × Json) → List (String × String) →
    Except String (List (String × Json) × List (String × String))
  | [], out, errs => .ok (out, errs)
  | obj :: rest, out, errs =>
    match processLine out errs obj with
    | .error e => .error e
    | .ok st => parseBatchAux rest st.1 st.2

/-- parsing.py `parse_batch_output_jsonl`: the `(out, errors)` dict pair,
or an uncaught exception. -/
def parse_batch_output_jsonl (lines : List Json) :
    Except String (List (String × Json) × List (String × String)) :=
  parseBatchAux lines [] []

/-- Content of a line's embedded chat-completion response: the value the
200-branch of the parse loop extracts, `none` when the body is not
well-formed. -/
def contentOf : Json → Option Json
  | .jobj fs =>
    match (lookupField fs "response").getD (.jobj []) with
    | .jobj rfs => getContent (.jobj rfs)
    | _ => none
  | _ => none

/-- Wait formula exactly as claim C3 words it: the exponential term is
capped at `MAX_BACKOFF` and the jitter is added after (outside) the cap. -/
def claimedWaitC3 (serverWait : ℚ) (attempt : Nat) (jitter : ℚ) : ℚ :=
  max serverWait (min MAX_BACKOFF (INITIAL_BACKOFF * 2 ^ attempt) + jitter)

/-! ## Theorems -/

/-- The comma-to-space substitution is idempotent on character lists. -/
theorem sanitizeChars_idem (l : List Char) :
    sanitizeChars (sanitizeChars l) = sanitizeChars l := by
  induction l with
  | nil => rfl
  | cons c rest ih =>
    simp only [sanitizeChars, List.map_cons, List.cons.injEq] at *
    refine ⟨?_, ih⟩
    by_cases hc : c = ','
    · simp [hc]
    · simp [hc]

/-- C9 (confirmed): `sanitize_job_title` returns a string with no comma
characters, maps `None` to the empty string, and is idempotent. -/
theorem c9_sanitize_job_title :
    (∀ t : Option String, ',' ∉ (sanitize_job_title t).data) ∧
    sanitize_job_title none = "" ∧
    (∀ t : Option String,
      sanitize_job_title (some (sanitize_job_title t)) = sanitize_job_title t) := by
  refine ⟨?_, rfl, ?_⟩
  · intro t h
    simp only [sanitize_job_title, sanitizeChars] at h
    rw [List.mem_map] at h
    obtain ⟨c, _, hc⟩ := h
    by_cases h' : c = ',' <;> simp [h'] at hc
  · intro t
    show (⟨sanitizeChars (sanitizeChars (t.getD "").data)⟩ : String) =
      ⟨sanitizeChars (t.getD "").data⟩
    rw [sanitizeChars_idem]

/-- C2 counterexample: the padded string `" Executive Sponsor "` is
non-empty and no member of `VALID_PERSONAS`, yet `determine_skip_reason`
accepts it (the code strips the persona before testing membership), where
the claim demands it be skipped with reason naming that very string. -/
theorem c2_counterexample :
    determine_skip_reason (some " Executive Sponsor ") = none ∧
    " Executive Sponsor " ∉ VALID_PERSONAS ∧ " Executive Sponsor " ≠ "" := by
  refine ⟨by decide, by decide, by decide⟩

/-- C2 amended (proved): acceptance is decided on the *stripped* persona:
a row is accepted iff the stripped persona is in `VALID_PERSONAS`; a
whitespace-or-missing persona is skipped with "No LLM response"; a stripped
persona that is non-empty and invalid is skipped with reason
"Invalid persona: " followed by the stripped value. -/
theorem c2_amended (cell : Option String) :
    (determine_skip_reason cell = none ↔ pyStrip (cell.getD "") ∈ VALID_PERSONAS) ∧
    (pyStrip (cell.getD "") = "" → determine_skip_reason cell = some "No LLM response") ∧
    (∀ p, pyStrip (cell.getD "") = p → p ≠ "" → p ∉ VALID_PERSONAS →
      determine_skip_reason cell = some ("Invalid persona: " ++ p)) := by
  by_cases h1 : pyStrip (cell.getD "") = ""
  · have hd : determine_skip_reason cell = some "No LLM response" := by
      simp [determine_skip_reason, h1]
    have hempty : ("" : String) ∉ VALID_PERSONAS := by decide
    refine ⟨?_, fun _ => hd, ?_⟩
    · rw [hd, h1]
      simp [hempty]
    · intro p hp hne _
      exact absurd (h1 ▸ hp).symm hne
  · by_cases h2 : pyStrip (cell.getD "") ∈ VALID_PERSONAS
    · have hd : determine_skip_reason cell = none := by
        simp [determine_skip_reason, h1, h2]
      refine ⟨?_, fun h => absurd h h1, ?_⟩
      · rw [hd]
        simp [h2]
      · intro p hp _ hnm
        exact absurd (hp ▸ h2) hnm
    · have hd : determine_skip_reason cell =
          some ("Invalid persona: " ++ pyStrip (cell.getD "")) := by
        simp [determine_skip_reason, h1, h2]
      refine ⟨?_, fun h => absurd h h1, ?_⟩
      · rw [hd]
        simp [h2]
      · intro p hp _ _
        rw [hd, hp]

/-- C2 amended, witness at the concrete persona cell `" Foo "`. -/
theorem c2_amended_witness :
    determine_skip_reason (some " Foo ") = some "Invalid persona: Foo" := by
  have h := (c2_amended (some " Foo ")).2.2 "Foo" (by decide) (by decide) (by decide)
  rw [h]
  decide

/-- C7 counterexample: with 5 total requests, a start timestamp 10 seconds
in the past (elapsed time nonzero) and 0 completed requests, `_estimate_eta`
returns an unknown ETA, where the claim allows "unknown" only for zero total
or zero elapsed time. -/
theorem c7_counterexample :
    (estimate_eta ⟨some 0, some 0, some 5, none, some 100⟩ 110).2.2 = none ∧
    totalOf (some 5) 0 0 ≠ 0 ∧ (110 : Int) - 100 ≠ 0 := by
  refine ⟨?_, by decide, by decide⟩
  simp only [estimate_eta, totalOf, inProgOf]
  norm_num

/-- C7 amended (proved): the ETA of `_estimate_eta` is unknown (`None`)
exactly when the total is zero, no nonzero start timestamp is available, or
the completed count is not positive (no positive throughput); in every other
case it is a non-negative number of seconds equal to
`max(0, total - completed) / (completed / max(1, now - start))`. -/
theorem c7_amended (meta : BatchMeta) (now : Int) :
    ((estimate_eta meta now).2.2 = none ↔
      (totalOf meta.total (meta.completed.getD 0) (meta.failed.getD 0) = 0 ∨
       inProgOf meta = none ∨ inProgOf meta = some 0 ∨
       meta.completed.getD 0 ≤ 0)) ∧
    (∀ q, (estimate_eta meta now).2.2 = some q → 0 ≤ q) ∧
    (∀ q, (estimate_eta meta now).2.2 = some q →
      ∃ t, inProgOf meta = some t ∧ t ≠ 0 ∧
        q = ((max 0 (totalOf meta.total (meta.completed.getD 0)
                (meta.failed.getD 0) - meta.completed.getD 0) : Int) : ℚ) /
            ((meta.completed.getD 0 : ℚ) / ((max 1 (now - t) : Int) : ℚ))) := by
  by_cases hT : totalOf meta.total (meta.completed.getD 0) (meta.failed.getD 0) = 0
  · have hd : (estimate_eta meta now).2.2 = none := by
      simp only [estimate_eta, if_pos hT]
    refine ⟨by rw [hd]; simp [hT], ?_, ?_⟩ <;>
      · intro q hq
        rw [hd] at hq
        exact absurd hq (by simp)
  · cases h : inProgOf meta with
    | none =>
      have hd : (estimate_eta meta now).2.2 = none := by
        simp only [estimate_eta, if_neg hT, h]
      refine ⟨by rw [hd]; simp [h, hT], ?_, ?_⟩ <;>
        · intro q hq
          rw [hd] at hq
          exact absurd hq (by simp)
    | some t =>
      by_cases ht : t = 0
      · subst ht
        have hd : (estimate_eta meta now).2.2 = none := by
          simp only [estimate_eta, if_neg hT, h]
          simp
        refine ⟨by rw [hd]; simp [h, hT], ?_, ?_⟩ <;>
          · intro q hq
            rw [hd] at hq
            exact absurd hq (by simp)
      · have he : (0 : ℚ) < ((max 1 (now - t) : Int) : ℚ) := by
          exact_mod_cast lt_of_lt_of_le zero_lt_one (le_max_left 1 (now - t))
        have hrate : ((meta.completed.getD 0 : ℚ) /
            ((max 1 (now - t) : Int) : ℚ) ≤ 0) ↔ meta.completed.getD 0 ≤ 0 := by
          constructor
          · intro hle
            rw [div_nonpos_iff] at hle
            rcases hle with ⟨_, hE⟩ | ⟨hC, _⟩
            · exact absurd hE (not_le.mpr he)
            · exact_mod_cast hC
          · intro hC
            apply div_nonpos_of_nonpos_of_nonneg
            · exact_mod_cast hC
            · exact le_of_lt he
        by_cases hr : ((meta.completed.getD 0 : ℚ) /
            ((max 1 (now - t) : Int) : ℚ) ≤ 0)
        · have hd : (estimate_eta meta now).2.2 = none := by
            simp only [estimate_eta, if_neg hT, h, if_neg ht, if_pos hr]
          refine ⟨by rw [hd]; simp [h, hT, ht, hrate.mp hr], ?_, ?_⟩ <;>
            · intro q hq
              rw [hd] at hq
              exact absurd hq (by simp)
        · have hd : (estimate_eta meta now).2.2 =
              some (((max 0 (totalOf meta.total (meta.completed.getD 0)
                    (meta.failed.getD 0) - meta.completed.getD 0) : Int) : ℚ) /
                  ((meta.completed.getD 0 : ℚ) / ((max 1 (now - t) : Int) : ℚ))) := by
            simp only [estimate_eta, if_neg hT, h, if_neg ht, if_neg hr]
          have hCpos : ¬ (meta.completed.getD 0 ≤ 0) := fun hc => hr (hrate.mpr hc)
          refine ⟨?_, ?_, ?_⟩
          · rw [hd]
            simp [hT, h, ht, hCpos]
          · intro q hq
            rw [hd] at hq
            injection hq with hq'
            rw [← hq']
            apply div_nonneg
            · exact_mod_cast le_max_left 0 _
            · exact le_of_lt (lt_of_not_le hr)
          · intro q hq
            rw [hd] at hq
            injection hq with hq'
            exact ⟨t, rfl, ht, hq'.symm⟩

/-- C7 amended, witness: 3 of 10 requests done after 30 seconds gives the
ETA `7 / (3 / 30) = 70` seconds, which is non-negative. -/
theorem c7_amended_witness :
    (estimate_eta ⟨some 3, some 1, some 10, some 100, none⟩ 130).2.2 = some 70 ∧
    (0 : ℚ) ≤ 70 := by
  have hs : (estimate_eta ⟨some 3, some 1, some 10, some 100, none⟩ 130).2.2 = some 70 := by
    simp only [estimate_eta, totalOf, inProgOf]
    norm_num
  exact ⟨hs, (c7_amended ⟨some 3, some 1, some 10, some 100, none⟩ 130).2.1 70 hs⟩

/-- Characterization of the sleep trace of the retry loop: the `i`-th sleep
of a run starting at attempt number `a` comes from a failed attempt `a + i`
and equals `max(server_wait, min(MAX_BACKOFF, INITIAL_BACKOFF * 2 ^ (a + i)
+ jitter))`. -/
theorem callAux_sleeps_get (outcomes : Nat → CallOutcome) :
    ∀ (fuel a c : Nat) (le : Option String) (i : Nat) (s : ℚ),
      (callAux outcomes fuel a c le).sleeps.get? i = some s →
      ∃ m j, outcomes (a + i) = .err m j ∧
        s = max (extract_retry_after_seconds m)
          (min MAX_BACKOFF (INITIAL_BACKOFF * 2 ^ (a + i) + j)) := by
  intro fuel
  induction fuel with
  | zero =>
    intro a c le i s h
    simp [callAux] at h
  | succ n ih =>
    intro a c le i s h
    cases ho : outcomes a with
    | ok rows =>
      simp [callAux, ho] at h
    | err m j =>
      simp only [callAux, ho] at h
      cases i with
      | zero =>
        simp only [List.get?_cons_zero, Option.some.injEq] at h
        exact ⟨m, j, by simpa using ho, h.symm⟩
      | succ i' =>
        simp only [List.get?_cons_succ] at h
        obtain ⟨m', j', h1, h2⟩ := ih (a + 1) _ (some m) i' s h
        have hsh : a + (i' + 1) = (a + 1) + i' := by omega
        rw [hsh]
        exact ⟨m', j', h1, h2⟩

/-- Length of the sleep trace when every attempt fails with the same error:
one sleep per allowed attempt. -/
theorem callAux_sleeps_len_allerr (m : String) (j : ℚ) :
    ∀ (fuel a c : Nat) (le : Option String),
      ((callAux (fun _ => CallOutcome.err m j) fuel a c le).sleeps).length = fuel := by
  intro fuel
  induction fuel with
  | zero => intro a c le; rfl
  | succ n ih =>
    intro a c le
    simp [callAux, ih]

/-- C3 amended (proved): the wait before retry `k` equals
`max(server_wait, min(MAX_BACKOFF, INITIAL_BACKOFF * 2 ^ k + jitter))` — the
jitter is added *inside* the `MAX_BACKOFF` cap, not outside it. -/
theorem c3_amended (outcomes : Nat → CallOutcome) (c0 k : Nat) (m : String)
    (j : ℚ) (h : outcomes k = .err m j) :
    ∀ s, (call_with_retries outcomes c0).sleeps.get? k = some s →
      s = max (extract_retry_after_seconds m)
        (min MAX_BACKOFF (INITIAL_BACKOFF * 2 ^ k + j)) := by
  intro s hs
  obtain ⟨m', j', h1, h2⟩ :=
    callAux_sleeps_get outcomes MAX_RETRIES 0 c0 none k s
      (by simpa [call_with_retries] using hs)
  rw [Nat.zero_add] at h1 h2
  rw [h] at h1
  injection h1 with hm hj
  rw [h2, ← hm, ← hj]

/-- C3 amended, witness: a run whose first attempt fails with message "x"
and jitter 1 sleeps `max(0, min(30, 2 + 1)) = 3` seconds before retrying. -/
theorem c3_amended_witness :
    ∃ s, (call_with_retries (fun _ => CallOutcome.err "x" 1) 20).sleeps.get? 0 =
        some s ∧
      s = max (extract_retry_after_seconds "x")
        (min MAX_BACKOFF (INITIAL_BACKOFF * 2 ^ 0 + 1)) := by
  have hlen : ((call_with_retries (fun _ => CallOutcome.err "x" 1) 20).sleeps).length
      = MAX_RETRIES := callAux_sleeps_len_allerr "x" 1 MAX_RETRIES 0 20 none
  cases hg : (call_with_retries (fun _ => CallOutcome.err "x" 1) 20).sleeps.get? 0 with
  | none =>
    have := List.get?_eq_none.mp hg
    rw [hlen] at this
    exact absurd this (by decide)
  | some s =>
    exact ⟨s, rfl, c3_amended (fun _ => CallOutcome.err "x" 1) 20 0 "x" 1 rfl s hg⟩

/-- C3 counterexample: with no server hint, at attempt 4 with jitter 1/2 the
code sleeps `min(30, 2 * 2^4 + 1/2) = 30` seconds, while the claim's formula
(cap before jitter) gives `min(30, 32) + 1/2 = 30.5`. -/
theorem c3_counterexample :
    (∃ s, (call_with_retries (fun _ => CallOutcome.err "boom" (1/2)) 50).sleeps.get? 4
        = some s ∧ s = 30) ∧
    claimedWaitC3 (extract_retry_after_seconds "boom") 4 (1/2) = 61/2 ∧
    (30 : ℚ) ≠ 61/2 := by
  have h0 : extract_retry_after_seconds "boom" = 0 := by decide
  refine ⟨?_, ?_, by norm_num⟩
  · have hlen : ((call_with_retries (fun _ => CallOutcome.err "boom" (1/2)) 50).sleeps).length
        = MAX_RETRIES := callAux_sleeps_len_allerr "boom" (1/2) MAX_RETRIES 0 50 none
    cases hg : (call_with_retries (fun _ => CallOutcome.err "boom" (1/2)) 50).sleeps.get? 4 with
    | none =>
      have := List.get?_eq_none.mp hg
      rw [hlen] at this
      exact absurd this (by decide)
    | some s =>
      obtain ⟨m', j', h1, h2⟩ :=
        callAux_sleeps_get (fun _ => CallOutcome.err "boom" (1/2)) MAX_RETRIES 0 50 none 4 s
          (by simpa [call_with_retries] using hg)
      injection h1 with hm hj
      refine ⟨s, rfl, ?_⟩
      rw [h2, ← hm, ← hj, h0]
      rw [MAX_BACKOFF, INITIAL_BACKOFF]
      norm_num
  · rw [h0, claimedWaitC3, MAX_BACKOFF, INITIAL_BACKOFF]
    norm_num

/-- C4 (confirmed): when the error message carries no retry-after hint, the
sleep before retry `k` is at least `min(MAX_BACKOFF, INITIAL_BACKOFF * 2^k)`
(the jitter only adds to the uncapped term, and the server hint only raises
the maximum). -/
theorem c4_backoff_lower_bound (outcomes : Nat → CallOutcome) (c0 k : Nat)
    (m : String) (j : ℚ) (h : outcomes k = .err m j)
    (hm : extract_retry_after_seconds m = 0) (hj : 0 ≤ j) :
    ∀ s, (call_with_retries outcomes c0).sleeps.get? k = some s →
      min MAX_BACKOFF (INITIAL_BACKOFF * 2 ^ k) ≤ s := by
  intro s hs
  obtain ⟨m', j', h1, h2⟩ :=
    callAux_sleeps_get outcomes MAX_RETRIES 0 c0 none k s
      (by simpa [call_with_retries] using hs)
  rw [Nat.zero_add] at h1 h2
  rw [h] at h1
  injection h1 with hmm hjj
  rw [h2, ← hmm, ← hjj, hm]
  calc min MAX_BACKOFF (INITIAL_BACKOFF * 2 ^ k)
      ≤ min MAX_BACKOFF (INITIAL_BACKOFF * 2 ^ k + j) := by
        apply min_le_min le_rfl
        linarith
    _ ≤ max 0 (min MAX_BACKOFF (INITIAL_BACKOFF * 2 ^ k + j)) := le_max_right _ _

/-- C4 witness: a run whose first attempt fails with the hint-free message
"y" and jitter 1/2 sleeps at least `min(30, 2) = 2` seconds. -/
theorem c4_backoff_lower_bound_witness :
    ∃ s, (call_with_retries (fun _ => CallOutcome.err "y" (1/2)) 15).sleeps.get? 0
        = some s ∧ min MAX_BACKOFF (INITIAL_BACKOFF * 2 ^ 0) ≤ s := by
  have hlen : ((call_with_retries (fun _ => CallOutcome.err "y" (1/2)) 15).sleeps).length
      = MAX_RETRIES := callAux_sleeps_len_allerr "y" (1/2) MAX_RETRIES 0 15 none
  cases hg : (call_with_retries (fun _ => CallOutcome.err "y" (1/2)) 15).sleeps.get? 0 with
  | none =>
    have := List.get?_eq_none.mp hg
    rw [hlen] at this
    exact absurd this (by decide)
  | some s =>
    refine ⟨s, rfl, ?_⟩
    exact c4_backoff_lower_bound (fun _ => CallOutcome.err "y" (1/2)) 15 0 "y" (1/2)
      rfl (by decide) (by norm_num) s hg

/-- The candidate-shrink step never increases the chunk size. -/
theorem shrinkChunk_le (c : Nat) : shrinkChunk c ≤ c := by
  show (if max MIN_CHUNK (c / 2) < c then max MIN_CHUNK (c / 2) else c) ≤ c
  split
  · exact le_of_lt (by assumption)
  · exact le_rfl

/-- Above the floor, the shrink step is exactly `max(MIN_CHUNK, c / 2)`. -/
theorem shrinkChunk_eq (c : Nat) (h : MIN_CHUNK ≤ c) :
    shrinkChunk c = max MIN_CHUNK (c / 2) := by
  show (if max MIN_CHUNK (c / 2) < c then max MIN_CHUNK (c / 2) else c)
    = max MIN_CHUNK (c / 2)
  split
  · rfl
  · next hlt =>
    have h1 : max MIN_CHUNK (c / 2) ≤ c := max_le h (Nat.div_le_self c 2)
    omega

/-- The shrink step preserves the `MIN_CHUNK` floor. -/
theorem shrinkChunk_min (c : Nat) (h : MIN_CHUNK ≤ c) : MIN_CHUNK ≤ shrinkChunk c := by
  show MIN_CHUNK ≤ (if max MIN_CHUNK (c / 2) < c then max MIN_CHUNK (c / 2) else c)
  split
  · exact le_max_left _ _
  · exact h

/-- Consecutive entries of the chunk trace of the retry loop: the chunk
after attempt `a + i` is the chunk before it, shrunk exactly when that
attempt failed with a rate-limit signature. -/
theorem callAux_chunks_rel (outcomes : Nat → CallOutcome) :
    ∀ (fuel a c : Nat) (le : Option String) (i c₁ c₂ : Nat),
      (c :: (callAux outcomes fuel a c le).chunks).get? i = some c₁ →
      (c :: (callAux outcomes fuel a c le).chunks).get? (i + 1) = some c₂ →
      ∃ m j, outcomes (a + i) = .err m j ∧
        c₂ = (if rateLimitSignal m then shrinkChunk c₁ else c₁) := by
  intro fuel
  induction fuel with
  | zero =>
    intro a c le i c₁ c₂ h1 h2
    simp [callAux, List.get?_cons_succ, List.get?_nil] at h2
  | succ n ih =>
    intro a c le i c₁ c₂ h1 h2
    cases ho : outcomes a with
    | ok rows =>
      simp [callAux, ho, List.get?_cons_succ, List.get?_nil] at h2
    | err m j =>
      simp only [callAux, ho] at h1 h2
      cases i with
      | zero =>
        simp only [List.get?_cons_zero, Option.some.injEq] at h1
        simp only [List.get?_cons_succ, List.get?_cons_zero, Option.some.injEq] at h2
        subst h1
        exact ⟨m, j, by simpa using ho, h2.symm⟩
      | succ i' =>
        simp only [List.get?_cons_succ] at h1 h2
        obtain ⟨m', j', ho', he⟩ := ih (a + 1) _ (some m) i' c₁ c₂ h1 h2
        have hsh : a + (i' + 1) = (a + 1) + i' := by omega
        rw [hsh]
        exact ⟨m', j', ho', he⟩

/-- On success, the chunk size returned by the retry loop never exceeds the
input chunk size and respects the `MIN_CHUNK` floor. -/
theorem callAux_result_chunk (outcomes : Nat → CallOutcome) :
    ∀ (fuel a c : Nat) (le : Option String) (r : List FRow) (c' : Nat),
      (callAux outcomes fuel a c le).result = .ok (r, c') →
      c' ≤ c ∧ (MIN_CHUNK ≤ c → MIN_CHUNK ≤ c') := by
  intro fuel
  induction fuel with
  | zero =>
    intro a c le r c' h
    simp [callAux] at h
  | succ n ih =>
    intro a c le r c' h
    cases ho : outcomes a with
    | ok rows =>
      simp only [callAux, ho, Except.ok.injEq, Prod.mk.injEq] at h
      rw [← h.2]
      exact ⟨le_rfl, id⟩
    | err m j =>
      simp only [callAux, ho] at h
      obtain ⟨hle, hmin⟩ := ih (a + 1) _ (some m) r c' h
      by_cases hr : rateLimitSignal m
      · simp only [hr, if_true] at hle hmin
        exact ⟨le_trans hle (shrinkChunk_le c),
          fun hm => hmin (shrinkChunk_min c hm)⟩
      · simp only [hr, if_false] at hle hmin
        exact ⟨hle, hmin⟩

/-- Invariants of one dispatch pass: the first call uses the pass's starting
chunk size; call-to-call chunk sizes never increase (the ratchet); and the
final chunk size is bounded by the start and floored at `MIN_CHUNK`. -/
theorem dispatchAux_chunks (calls : Nat → Nat → CallOutcome) (rows : List String) :
    ∀ (fuel i c : Nat),
      ((dispatchAux calls rows fuel i c).callChunks.get? 0 = none ∨
       (dispatchAux calls rows fuel i c).callChunks.get? 0 = some c) ∧
      (∀ k c₁ c₂, (dispatchAux calls rows fuel i c).callChunks.get? k = some c₁ →
        (dispatchAux calls rows fuel i c).callChunks.get? (k + 1) = some c₂ →
        c₂ ≤ c₁) ∧
      ((dispatchAux calls rows fuel i c).chunk ≤ c ∧
       (MIN_CHUNK ≤ c → MIN_CHUNK ≤ (dispatchAux calls rows fuel i c).chunk)) := by
  intro fuel
  induction fuel with
  | zero =>
    intro i c
    refine ⟨Or.inl rfl, ?_, le_rfl, id⟩
    intro k c₁ c₂ h1 h2
    simp [dispatchAux, List.get?] at h1
  | succ n ih =>
    intro i c
    by_cases hi : i < rows.length
    · cases hrun : (call_with_retries (calls i) c).result with
      | ok rc =>
        have hcr := callAux_result_chunk (calls i) MAX_RETRIES 0 c none rc.1 rc.2
          (by rw [call_with_retries] at hrun; rw [hrun])
        obtain ⟨ihhead, ihstep, ihfin⟩ := ih (min (i + c) rows.length) rc.2
        simp only [dispatchAux, if_pos hi, hrun]
        refine ⟨Or.inr (by simp), ?_, ?_⟩
        · intro k c₁ c₂ h1 h2
          cases k with
          | zero =>
            simp only [List.get?_cons_zero, Option.some.injEq] at h1
            simp only [List.get?_cons_succ] at h2
            rcases ihhead with hh | hh
            · rw [hh] at h2; cases h2
            · rw [hh] at h2
              injection h2 with h2'
              omega
          | succ k' =>
            simp only [List.get?_cons_succ] at h1 h2
            exact ihstep k' c₁ c₂ h1 h2
        · exact ⟨le_trans ihfin.1 hcr.1, fun hm => ihfin.2 (hcr.2 hm)⟩
      | error e =>
        obtain ⟨ihhead, ihstep, ihfin⟩ := ih (min (i + c) rows.length) c
        simp only [dispatchAux, if_pos hi, hrun]
        refine ⟨Or.inr (by simp), ?_, ?_⟩
        · intro k c₁ c₂ h1 h2
          cases k with
          | zero =>
            simp only [List.get?_cons_zero, Option.some.injEq] at h1
            simp only [List.get?_cons_succ] at h2
            rcases ihhead with hh | hh
            · rw [hh] at h2; cases h2
            · rw [hh] at h2
              injection h2 with h2'
              omega
          | succ k' =>
            simp only [List.get?_cons_succ] at h1 h2
            exact ihstep k' c₁ c₂ h1 h2
        · exact ihfin
    · refine ⟨Or.inl ?_, ?_, ?_⟩
      · simp [dispatchAux, if_neg hi, List.get?]
      · intro k c₁ c₂ h1 h2
        simp [dispatchAux, if_neg hi, List.get?] at h1
      · simp only [dispatchAux, if_neg hi]
        exact ⟨le_rfl, id⟩

/-- The chunk size after one orchestrator pass stays within
`[MIN_CHUNK, MAX_CHUNK]` if it started there. -/
theorem passStep_chunk_bounds (calls : Nat → Nat → CallOutcome) (df : List String)
    (p : Nat) (st : OrchState) (h1 : MIN_CHUNK ≤ st.chunk)
    (h2 : st.chunk ≤ MAX_CHUNK) :
    MIN_CHUNK ≤ (passStep calls df p st).post.chunk ∧
    (passStep calls df p st).post.chunk ≤ MAX_CHUNK := by
  have hd := (dispatchAux_chunks calls
    (df.filter (fun id => decide (id ∈ st.remaining)))
    (df.filter (fun id => decide (id ∈ st.remaining))).length 0 st.chunk).2.2
  simp only [passStep, dispatchPass]
  split
  · constructor
    · exact le_max_left _ _
    · refine max_le (by decide) ?_
      exact le_trans (Nat.div_le_self _ 2) (le_trans hd.1 h2)
  · exact ⟨hd.2 h1, le_trans hd.1 h2⟩

/-- Every executed pass starts with a chunk size in `[MIN_CHUNK, MAX_CHUNK]`. -/
theorem runAux_pre_chunk (calls : Nat → Nat → Nat → CallOutcome) (df : List String) :
    ∀ (fuel p : Nat) (st : OrchState),
      MIN_CHUNK ≤ st.chunk → st.chunk ≤ MAX_CHUNK →
      ∀ log ∈ (runAux calls df fuel p st).2,
        MIN_CHUNK ≤ log.pre.chunk ∧ log.pre.chunk ≤ MAX_CHUNK := by
  intro fuel
  induction fuel with
  | zero =>
    intro p st _ _ log hlog
    simp [runAux] at hlog
  | succ n ih =>
    intro p st hmin hmax log hlog
    by_cases hre : st.remaining = ∅
    · simp [runAux, hre] at hlog
    · simp only [runAux, if_neg hre, List.mem_cons] at hlog
      rcases hlog with rfl | hlog

      · exact ⟨hmin, hmax⟩
      · have hb := passStep_chunk_bounds (calls p) df p st hmin hmax
        exact ih (p + 1) _ hb.1 hb.2 log hlog

/-- C5 (confirmed): (i) inside the retry loop, consecutive chunk sizes never
increase, and a rate-limit-signalled failure at a chunk size at or above the
floor shrinks it to exactly `max(MIN_CHUNK, previous / 2)`; (ii) across the
calls of one pass the chunk size never increases (the ratchet persists);
(iii) every executed pass starts with a chunk size at most `MAX_CHUNK`. -/
theorem c5_chunk_invariants :
    (∀ (outcomes : Nat → CallOutcome) (c0 i c₁ c₂ : Nat),
      (c0 :: (call_with_retries outcomes c0).chunks).get? i = some c₁ →
      (c0 :: (call_with_retries outcomes c0).chunks).get? (i + 1) = some c₂ →
      c₂ ≤ c₁ ∧
      ∀ m j, outcomes i = .err m j → rateLimitSignal m = true →
        MIN_CHUNK ≤ c₁ → c₂ = max MIN_CHUNK (c₁ / 2)) ∧
    (∀ (calls : Nat → Nat → CallOutcome) (rows : List String) (c0 k c₁ c₂ : Nat),
      (dispatchPass calls rows c0).callChunks.get? k = some c₁ →
      (dispatchPass calls rows c0).callChunks.get? (k + 1) = some c₂ →
      c₂ ≤ c₁) ∧
    (∀ (calls : Nat → Nat → Nat → CallOutcome) (df : List String),
      ∀ log ∈ (runPasses calls df).2, log.pre.chunk ≤ MAX_CHUNK) := by
  refine ⟨?_, ?_, ?_⟩
  · intro outcomes c0 i c₁ c₂ h1 h2
    obtain ⟨m', j', ho, he⟩ := callAux_chunks_rel outcomes MAX_RETRIES 0 c0 none i c₁ c₂
      (by simpa [call_with_retries] using h1)
      (by simpa [call_with_retries] using h2)
    rw [Nat.zero_add] at ho
    constructor
    · rw [he]
      split
      · exact shrinkChunk_le c₁
      · exact le_rfl
    · intro m j hmj hrate hmin
      rw [hmj] at ho
      injection ho with hm hj
      rw [he, ← hm, hrate, if_pos rfl, shrinkChunk_eq c₁ hmin]
  · intro calls rows c0 k c₁ c₂ h1 h2
    exact (dispatchAux_chunks calls rows rows.length 0 c0).2.1 k c₁ c₂ h1 h2
  · intro calls df log hlog
    exact (runAux_pre_chunk calls df MAX_PASSES 1 ⟨df.toFinset, MAX_CHUNK, []⟩
      (show MIN_CHUNK ≤ MAX_CHUNK by decide) le_rfl log hlog).2

/-- C5 witness: a first attempt failing with a "429 rate limit" message at
chunk size 40 shrinks the chunk to `max(10, 40 / 2) = 20`. -/
theorem c5_chunk_invariants_witness :
    (40 :: (call_with_retries (fun _ => CallOutcome.err "429 rate limit" 0) 40).chunks).get? 0
      = some 40 ∧
    (40 :: (call_with_retries (fun _ => CallOutcome.err "429 rate limit" 0) 40).chunks).get? 1
      = some 20 ∧
    20 ≤ 40 ∧ 20 = max MIN_CHUNK (40 / 2) := by
  have h1 : (40 :: (call_with_retries (fun _ => CallOutcome.err "429 rate limit" 0) 40).chunks).get? 0
      = some 40 := by decide
  have h2 : (40 :: (call_with_retries (fun _ => CallOutcome.err "429 rate limit" 0) 40).chunks).get? 1
      = some 20 := by decide
  have h := c5_chunk_invariants.1 (fun _ => CallOutcome.err "429 rate limit" 0) 40 0 40 20 h1 h2
  exact ⟨h1, h2, h.1, h.2 "429 rate limit" 0 rfl (by decide) (by decide)⟩

/-- The fuzzy-correction loop partitions the ids of its input between the
corrected and the still-invalid outputs. -/
theorem fuzzyLoop_pids_perm (cm : String → Option String) :
    ∀ l : List MRow,
      ((fuzzyLoop cm l).1.map MRow.pid ++ (fuzzyLoop cm l).2.map MRow.pid).Perm
        (l.map MRow.pid) := by
  intro l
  induction l with
  | nil => simp [fuzzyLoop]
  | cons r rs ih =>
    by_cases hp : pyStrip (personaStr r) = ""
    · simp only [fuzzyLoop, hp, reduceIte, List.map_cons]
      exact (List.perm_middle).trans (ih.cons r.pid)
    · cases hc : cm (pyStrip (personaStr r)) with
      | some m =>
        simp only [fuzzyLoop, hp, reduceIte, hc, List.map_cons, List.cons_append]
        exact ih.cons r.pid
      | none =>
        simp only [fuzzyLoop, hp, reduceIte, hc, List.map_cons]
        exact (List.perm_middle).trans (ih.cons r.pid)

/-- Every corrected row of the loop arises from an input row with a
non-empty stripped persona that the matcher repaired; only the persona and
skip-reason cells change. -/
theorem fuzzyLoop_corr (cm : String → Option String) :
    ∀ l : List MRow, ∀ c ∈ (fuzzyLoop cm l).1,
      ∃ r ∈ l, pyStrip (personaStr r) ≠ "" ∧
        ∃ m, cm (pyStrip (personaStr r)) = some m ∧
          c = ⟨r.pid, some m, r.certainty, none⟩ := by
  intro l
  induction l with
  | nil =>
    intro c hc
    simp [fuzzyLoop] at hc
  | cons r rs ih =>
    intro c hc
    by_cases hp : pyStrip (personaStr r) = ""
    · simp only [fuzzyLoop, hp, reduceIte] at hc
      obtain ⟨r', hr', h⟩ := ih c hc
      exact ⟨r', List.mem_cons_of_mem r hr', h⟩
    · cases hm : cm (pyStrip (personaStr r)) with
      | some m =>
        simp only [fuzzyLoop, hp, reduceIte, hm, List.mem_cons] at hc
        rcases hc with rfl | hc
        · exact ⟨r, List.mem_cons_self r rs, hp, m, hm, rfl⟩
        · obtain ⟨r', hr', h⟩ := ih c hc
          exact ⟨r', List.mem_cons_of_mem r hr', h⟩
      | none =>
        simp only [fuzzyLoop, hp, reduceIte, hm] at hc
        obtain ⟨r', hr', h⟩ := ih c hc
        exact ⟨r', List.mem_cons_of_mem r hr', h⟩

/-- Still-invalid rows of the loop are rows of its input, unchanged. -/
theorem fuzzyLoop_still_sub (cm : String → Option String) :
    ∀ l : List MRow, ∀ x ∈ (fuzzyLoop cm l).2, x ∈ l := by
  intro l
  induction l with
  | nil =>
    intro x hx
    simp [fuzzyLoop] at hx
  | cons r rs ih =>
    intro x hx
    by_cases hp : pyStrip (personaStr r) = ""
    · simp only [fuzzyLoop, hp, reduceIte, List.mem_cons] at hx
      rcases hx with rfl | hx
      · exact List.mem_cons_self x rs
      · exact List.mem_cons_of_mem r (ih x hx)
    · cases hm : cm (pyStrip (personaStr r)) with
      | some m =>
        simp only [fuzzyLoop, hp, reduceIte, hm] at hx
        exact List.mem_cons_of_mem r (ih x hx)
      | none =>
        simp only [fuzzyLoop, hp, reduceIte, hm, List.mem_cons] at hx
        rcases hx with rfl | hx
        · exact List.mem_cons_self x rs
        · exact List.mem_cons_of_mem r (ih x hx)

/-- `fuzzy_match_invalid_personas` partitions the ids of its input between
its two outputs. -/
theorem fuzzy_pids_perm (cm : String → Option String) (skipped : List MRow) :
    ((fuzzy_match_invalid_personas cm skipped).1.map MRow.pid ++
     (fuzzy_match_invalid_personas cm skipped).2.map MRow.pid).Perm
      (skipped.map MRow.pid) := by
  by_cases h0 : skipped = ([] : List MRow)
  · simp [fuzzy_match_invalid_personas, h0]
  · by_cases h1 : skipped.filter (fun r => invalidReason r) = []
    · simp [fuzzy_match_invalid_personas, h0, h1]
    · simp only [fuzzy_match_invalid_personas, h0, h1, reduceIte, List.map_append]
      have hfl := fuzzyLoop_pids_perm cm (skipped.filter (fun r => invalidReason r))
      have hpart : ((skipped.filter (fun r => invalidReason r)) ++
          (skipped.filter (fun r => !(invalidReason r)))).Perm skipped :=
        List.filter_append_perm _ skipped
      have hpartm := hpart.map MRow.pid
      rw [List.map_append] at hpartm
      have p1 : ((fuzzyLoop cm (skipped.filter (fun r => invalidReason r))).1.map MRow.pid ++
          ((skipped.filter (fun r => !(invalidReason r))).map MRow.pid ++
           (fuzzyLoop cm (skipped.filter (fun r => invalidReason r))).2.map MRow.pid)).Perm
          ((skipped.filter (fun r => !(invalidReason r))).map MRow.pid ++
           ((fuzzyLoop cm (skipped.filter (fun r => invalidReason r))).1.map MRow.pid ++
            (fuzzyLoop cm (skipped.filter (fun r => invalidReason r))).2.map MRow.pid)) := by
        rw [← List.append_assoc, ← List.append_assoc]
        exact (List.perm_append_comm).append_right _
      refine p1.trans ?_
      refine (hfl.append_left _).trans ?_
      exact (List.perm_append_comm).trans hpartm

/-- Every corrected row of `fuzzy_match_invalid_personas` comes from an
input row carrying an "Invalid persona:" skip reason and a non-empty
persona; the correction installs the matcher's value and clears the
reason. -/
theorem fuzzy_corr (cm : String → Option String) (skipped : List MRow) :
    ∀ c ∈ (fuzzy_match_invalid_personas cm skipped).1,
      ∃ r ∈ skipped, invalidReason r = true ∧ pyStrip (personaStr r) ≠ "" ∧
        ∃ m, cm (pyStrip (personaStr r)) = some m ∧
          c = ⟨r.pid, some m, r.certainty, none⟩ := by
  intro c hc
  by_cases h0 : skipped = ([] : List MRow)
  · simp [fuzzy_match_invalid_personas, h0] at hc
  · by_cases h1 : skipped.filter (fun r => invalidReason r) = []
    · simp [fuzzy_match_invalid_personas, h0, h1] at hc
    · simp only [fuzzy_match_invalid_personas, h0, h1, reduceIte] at hc
      obtain ⟨r, hr, hne, m, hm, hceq⟩ :=
        fuzzyLoop_corr cm (skipped.filter (fun r => invalidReason r)) c hc
      exact ⟨r, List.mem_of_mem_filter hr, List.of_mem_filter hr, hne, m, hm, hceq⟩

/-- Still-skipped rows of `fuzzy_match_invalid_personas` are rows of its
input, unchanged. -/
theorem fuzzy_still_sub (cm : String → Option String) (skipped : List MRow) :
    ∀ x ∈ (fuzzy_match_invalid_personas cm skipped).2, x ∈ skipped := by
  intro x hx
  by_cases h0 : skipped = ([] : List MRow)
  · rw [fuzzy_match_invalid_personas, if_pos h0] at hx
    exact hx
  · by_cases h1 : skipped.filter (fun r => invalidReason r) = []
    · simp only [fuzzy_match_invalid_personas, h0, h1, reduceIte] at hx
      exact hx
    · simp only [fuzzy_match_invalid_personas, h0, h1, reduceIte,
        List.mem_append] at hx
      rcases hx with hx | hx
      · exact List.mem_of_mem_filter hx
      · exact List.mem_of_mem_filter
          (fuzzyLoop_still_sub cm (skipped.filter (fun r => invalidReason r)) x hx)

/-- A skipped row whose reason does not start with "Invalid persona:" is
returned among the still-skipped rows. -/
theorem fuzzy_other_mem (cm : String → Option String) (skipped : List MRow) :
    ∀ r ∈ skipped, invalidReason r = false →
      r ∈ (fuzzy_match_invalid_personas cm skipped).2 := by
  intro r hr hf
  by_cases h0 : skipped = ([] : List MRow)
  · rw [fuzzy_match_invalid_personas, if_pos h0]
    exact hr
  · by_cases h1 : skipped.filter (fun r => invalidReason r) = []
    · simp [fuzzy_match_invalid_personas, h0, h1]
      exact hr
    · simp only [fuzzy_match_invalid_personas, h0, h1]
      simp only [reduceIte, List.mem_append]
      left
      exact List.mem_filter.mpr ⟨hr, by rw [hf]; rfl⟩

/-- C10 (confirmed): `fuzzy_match_invalid_personas` partitions its input —
under unique row ids, every input row's id lands in exactly one of
(corrected, still-skipped); only rows with an "Invalid persona:" skip reason
and non-empty persona are corrected; every corrected row carries a persona
from `VALID_PERSONAS` (given the `get_close_matches` contract that a match
is drawn from the candidate list) and a cleared skip reason; still-skipped
rows are input rows unchanged. -/
theorem c10_fuzzy_partition (cm : String → Option String)
    (hcm : ∀ p m, cm p = some m → m ∈ VALID_PERSONAS)
    (skipped : List MRow) (hn : (skipped.map MRow.pid).Nodup) :
    (∀ r ∈ skipped,
      (r.pid ∈ (fuzzy_match_invalid_personas cm skipped).1.map MRow.pid ∧
       r.pid ∉ (fuzzy_match_invalid_personas cm skipped).2.map MRow.pid) ∨
      (r.pid ∉ (fuzzy_match_invalid_personas cm skipped).1.map MRow.pid ∧
       r.pid ∈ (fuzzy_match_invalid_personas cm skipped).2.map MRow.pid)) ∧
    (∀ c ∈ (fuzzy_match_invalid_personas cm skipped).1,
      (∃ m, c.persona = some m ∧ m ∈ VALID_PERSONAS) ∧ c.skipReason = none ∧
      ∃ r ∈ skipped, r.pid = c.pid ∧ invalidReason r = true ∧ personaStr r ≠ "") ∧
    (∀ s ∈ (fuzzy_match_invalid_personas cm skipped).2, s ∈ skipped) := by
  have hperm := fuzzy_pids_perm cm skipped
  have hnd : ((fuzzy_match_invalid_personas cm skipped).1.map MRow.pid ++
      (fuzzy_match_invalid_personas cm skipped).2.map MRow.pid).Nodup :=
    hperm.nodup_iff.mpr hn
  rw [List.nodup_append] at hnd
  refine ⟨?_, ?_, fuzzy_still_sub cm skipped⟩
  · intro r hr
    have hmem : r.pid ∈ (fuzzy_match_invalid_personas cm skipped).1.map MRow.pid ++
        (fuzzy_match_invalid_personas cm skipped).2.map MRow.pid :=
      hperm.mem_iff.mpr (List.mem_map_of_mem MRow.pid hr)
    rw [List.mem_append] at hmem
    rcases hmem with h | h
    · exact Or.inl ⟨h, fun h2 => hnd.2.2 h h2⟩
    · exact Or.inr ⟨fun h1 => hnd.2.2 h1 h, h⟩
  · intro c hc
    obtain ⟨r, hr, hinv, hne, m, hm, hceq⟩ := fuzzy_corr cm skipped c hc
    subst hceq
    refine ⟨⟨m, rfl, hcm _ m hm⟩, rfl, r, hr, rfl, hinv, ?_⟩
    intro hps
    exact hne (by rw [hps]; rfl)

/-- C10 witness: a single skipped row with invalid persona
`"Economic  Buyer"` (doubled space) and a matcher repairing it to
`"Economic Buyer"` is corrected, so its id leaves the still-skipped side. -/
theorem c10_fuzzy_partition_witness :
    (⟨"1", some "Economic  Buyer", some "90",
        some "Invalid persona: Economic  Buyer"⟩ : MRow).pid ∈
      (fuzzy_match_invalid_personas
        (fun s => if s = "Economic  Buyer" then some "Economic Buyer" else none)
        [⟨"1", some "Economic  Buyer", some "90",
          some "Invalid persona: Economic  Buyer"⟩]).1.map MRow.pid ∧
    (⟨"1", some "Economic  Buyer", some "90",
        some "Invalid persona: Economic  Buyer"⟩ : MRow).pid ∉
      (fuzzy_match_invalid_personas
        (fun s => if s = "Economic  Buyer" then some "Economic Buyer" else none)
        [⟨"1", some "Economic  Buyer", some "90",
          some "Invalid persona: Economic  Buyer"⟩]).2.map MRow.pid := by
  have hcm : ∀ p m,
      (fun s => if s = "Economic  Buyer" then some "Economic Buyer" else none) p
        = some m → m ∈ VALID_PERSONAS := by
    intro p m h
    have h2 : (if p = "Economic  Buyer" then some "Economic Buyer" else none)
        = some m := h
    by_cases hp : p = "Economic  Buyer"
    · rw [if_pos hp] at h2
      injection h2 with h'
      rw [← h']
      decide
    · rw [if_neg hp] at h2
      cases h2
  have h := (c10_fuzzy_partition
    (fun s => if s = "Economic  Buyer" then some "Economic Buyer" else none) hcm
    [⟨"1", some "Economic  Buyer", some "90",
      some "Invalid persona: Economic  Buyer"⟩] (by decide)).1
    ⟨"1", some "Economic  Buyer", some "90",
      some "Invalid persona: Economic  Buyer"⟩ (List.mem_singleton.mpr rfl)
  rcases h with h | h
  · exact h
  · exact absurd h.2 (by decide)

/-- A row is accepted by `determine_skip_reason` exactly when its stripped
persona is a member of the vocabulary. -/
theorem determine_none_char (cell : Option String) :
    determine_skip_reason cell = none ↔ pyStrip (cell.getD "") ∈ VALID_PERSONAS := by
  by_cases h1 : pyStrip (cell.getD "") = ""
  · simp only [determine_skip_reason, h1, reduceIte]
    exact iff_of_false (by simp) (by decide)
  · by_cases h2 : pyStrip (cell.getD "") ∈ VALID_PERSONAS
    · simp [determine_skip_reason, h1, h2]
    · simp [determine_skip_reason, h1, h2]

/-- An accepted row carries an actual persona string whose stripped form is
in the vocabulary (and in particular non-empty). -/
theorem determine_none_some (cell : Option String)
    (h : determine_skip_reason cell = none) :
    ∃ p, cell = some p ∧ pyStrip p ∈ VALID_PERSONAS ∧ pyStrip p ≠ "" := by
  cases cell with
  | none =>
    exact absurd h (by decide)
  | some p =>
    have hmem := (determine_none_char (some p)).mp h
    simp only [Option.getD_some] at hmem
    refine ⟨p, rfl, hmem, ?_⟩
    intro hps
    rw [hps] at hmem
    exact absurd hmem (by decide)

/-- Under unique keys, at most one list element matches a given key. -/
theorem nodup_filter_len {α : Type} (key : α → String) (l : List α)
    (h : (l.map key).Nodup) (x : String) :
    (l.filter (fun a => key a = x)).length ≤ 1 := by
  induction l with
  | nil => simp
  | cons a rest ih =>
    simp only [List.map_cons, List.nodup_cons] at h
    by_cases hx : key a = x
    · have hnil : rest.filter (fun b => key b = x) = [] := by
        rw [List.filter_eq_nil_iff]
        intro b hb hpb
        apply h.1
        rw [decide_eq_true_eq] at hpb
        have hab : key a = key b := by rw [hx, hpb]
        rw [hab]
        exact List.mem_map_of_mem key hb
      simp [List.filter_cons, hx, hnil]
    · simp only [List.filter_cons]
      rw [if_neg (by simpa using hx)]
      exact ih h.2

/-- Under unique right-hand ids, the left merge yields exactly one row per
left id, in order: its id column is the left id list. -/
theorem mergeLeft_map_pid (df : List String) (formatted : List FRow)
    (hf : (formatted.map FRow.pid).Nodup) :
    (mergeLeft df formatted).map MRow.pid = df := by
  induction df with
  | nil => rfl
  | cons pid rest ih =>
    simp only [mergeLeft, List.flatMap_cons, List.map_append] at *
    rw [ih]
    have hblock : ((if formatted.filter (fun fr => fr.pid = pid) = [] then
        [(⟨pid, none, none, none⟩ : MRow)]
        else (formatted.filter (fun fr => fr.pid = pid)).map
          (fun fr => ⟨pid, fr.persona, fr.certainty, none⟩)).map MRow.pid) = [pid] := by
      cases hms : formatted.filter (fun fr => fr.pid = pid) with
      | nil => simp
      | cons a rest2 =>
        have hlen := nodup_filter_len FRow.pid formatted hf pid
        rw [hms] at hlen
        have : rest2 = [] := by
          simp only [List.length_cons] at hlen
          exact List.eq_nil_of_length_eq_zero (by omega)
        subst this
        simp [hms]
    rw [hblock]
    rfl

/-- Every merged row keeps the source structure: left id, right cells where
matched (provenance into `formatted`), no skip reason yet. -/
theorem mergeLeft_mem (df : List String) (formatted : List FRow) :
    ∀ r ∈ mergeLeft df formatted,
      r.skipReason = none ∧ r.pid ∈ df ∧
      (r.persona = none ∨ ∃ fr ∈ formatted, fr.persona = r.persona) := by
  intro r hr
  rw [mergeLeft, List.mem_flatMap] at hr
  obtain ⟨pid, hpid, hblock⟩ := hr
  by_cases hms : formatted.filter (fun fr => fr.pid = pid) = []
  · rw [if_pos hms, List.mem_singleton] at hblock
    subst hblock
    exact ⟨rfl, hpid, Or.inl rfl⟩
  · rw [if_neg hms, List.mem_map] at hblock
    obtain ⟨fr, hfr, hreq⟩ := hblock
    subst hreq
    exact ⟨rfl, hpid, Or.inr ⟨fr, List.mem_of_mem_filter hfr, rfl⟩⟩

/-- A left id with no matching parsed row produces the all-missing merged
row. -/
theorem mergeLeft_unmatched (df : List String) (formatted : List FRow)
    (id : String) (hid : id ∈ df)
    (hnot : formatted.filter (fun fr => fr.pid = id) = []) :
    (⟨id, none, none, none⟩ : MRow) ∈ mergeLeft df formatted := by
  rw [mergeLeft, List.mem_flatMap]
  exact ⟨id, hid, by rw [if_pos hnot]; exact List.mem_singleton.mpr rfl⟩

/-- `drop_duplicates(keep="first")` is the identity on key-unique frames
(auxiliary form with an accumulator of already-seen keys). -/
theorem dedupeByAux_eq_self {α : Type} (key : α → String) :
    ∀ (l : List α) (seen : List String), (∀ a ∈ l, key a ∉ seen) →
      (l.map key).Nodup → dedupeByAux key seen l = l := by
  intro l
  induction l with
  | nil => intro seen _ _; rfl
  | cons a rest ih =>
    intro seen hfresh hnd
    simp only [List.map_cons, List.nodup_cons] at hnd
    rw [dedupeByAux, if_neg (hfresh a (List.mem_cons_self a rest))]
    congr 1
    apply ih
    · intro b hb
      simp only [List.mem_cons]
      rintro (hk | hk)
      · exact hnd.1 (hk ▸ List.mem_map_of_mem key hb)
      · exact hfresh b (List.mem_cons_of_mem a hb) hk
    · exact hnd.2

/-- `drop_duplicates(keep="first")` is the identity on key-unique frames. -/
theorem dedupeBy_eq_self {α : Type} (key : α → String) (l : List α)
    (h : (l.map key).Nodup) : dedupeBy key l = l :=
  dedupeByAux_eq_self key l [] (by intro a _ hk; cases hk) h

/-- The merged table's id column is the input id column (ids are preserved
by the skip-reason computation). -/
theorem mergedOf_map_pid (df : List String) (formatted : List FRow)
    (hf : (formatted.map FRow.pid).Nodup) :
    (mergedOf df formatted).map MRow.pid = df := by
  rw [mergedOf, List.map_map]
  exact mergeLeft_map_pid df formatted hf

/-- A merged row accepted by the skip-reason computation carries a persona
that survives the exact membership filter, given that no parsed persona is
merely padding away from validity. -/
theorem merged_accept_valid (df : List String) (formatted : List FRow)
    (hpad : ∀ fr ∈ formatted, ∀ p, fr.persona = some p →
      pyStrip p ∈ VALID_PERSONAS → pyStrip p = p) :
    ∀ r ∈ mergedOf df formatted, r.skipReason = none → personaIsValid r = true := by
  intro r hr hnone
  rw [mergedOf, List.mem_map] at hr
  obtain ⟨r0, hr0, hreq⟩ := hr
  subst hreq
  simp only at hnone
  obtain ⟨p, hp, hmem, _⟩ := determine_none_some (some (r0.persona.getD "nan")) hnone
  injection hp with hp'
  obtain ⟨_, _, hprov⟩ := mergeLeft_mem df formatted r0 hr0
  cases hq : r0.persona with
  | none =>
    rw [hq] at hp'
    simp only [Option.getD_none] at hp'
    rw [← hp'] at hmem
    exact absurd hmem (by decide)
  | some q =>
    rw [hq] at hp'
    simp only [Option.getD_some] at hp'
    subst hp'
    rcases hprov with hnonep | ⟨fr, hfr, hfp⟩
    · rw [hq] at hnonep
      cases hnonep
    · rw [hq] at hfp
      have hpp := hpad fr hfr q hfp hmem
      simp only [personaIsValid, hq]
      rw [decide_eq_true_eq, ← hpp]
      exact hmem

/-- Behaviour of the fuzzy-correction stage: ids are preserved as a
partition, accepted rows are either original accepted rows or corrected
rows with a vocabulary persona, and skipped rows come from the skipped
input. -/
theorem postStep_spec (cm : String → Option String)
    (hcm : ∀ p m, cm p = some m → m ∈ VALID_PERSONAS)
    (final0 skipped0 : List MRow) :
    (((postStep cm final0 skipped0).1.map MRow.pid ++
      (postStep cm final0 skipped0).2.map MRow.pid).Perm
        (final0.map MRow.pid ++ skipped0.map MRow.pid)) ∧
    (∀ r ∈ (postStep cm final0 skipped0).1,
      r ∈ final0 ∨ ∃ m, r.persona = some m ∧ m ∈ VALID_PERSONAS) ∧
    (∀ r ∈ (postStep cm final0 skipped0).2, r ∈ skipped0) := by
  by_cases h0 : skipped0 = []
  · simp only [postStep, h0, reduceIte]
    exact ⟨List.Perm.refl _, fun r hr => Or.inl hr, fun r hr => hr⟩
  · by_cases h1 : (fuzzy_match_invalid_personas cm skipped0).1 = []
    · simp only [postStep, h0, h1, reduceIte]
      exact ⟨List.Perm.refl _, fun r hr => Or.inl hr, fun r hr => hr⟩
    · simp only [postStep, h0, h1, reduceIte]
      refine ⟨?_, ?_, ?_⟩
      · rw [List.map_append, List.append_assoc]
        exact (fuzzy_pids_perm cm skipped0).append_left (final0.map MRow.pid)
      · intro r hr
        rw [List.mem_append] at hr
        rcases hr with hr | hr
        · exact Or.inl hr
        · obtain ⟨r0, _, _, _, m, hm, hreq⟩ := fuzzy_corr cm skipped0 r hr
          subst hreq
          exact Or.inr ⟨m, rfl, hcm _ m hm⟩
      · exact fuzzy_still_sub cm skipped0

/-- Master lemma for the post-processing stage: under unique input ids,
unique parsed ids, the `get_close_matches` contract and padding-free valid
personas, the accepted and skipped outputs its ids partition the input id
list, and every skipped row carries a skip reason. -/
theorem postProcess_spec (cm : String → Option String) (df : List String)
    (formatted : List FRow)
    (hcm : ∀ p m, cm p = some m → m ∈ VALID_PERSONAS)
    (hdf : df.Nodup)
    (hfmt : (formatted.map FRow.pid).Nodup)
    (hpad : ∀ fr ∈ formatted, ∀ p, fr.persona = some p →
      pyStrip p ∈ VALID_PERSONAS → pyStrip p = p) :
    ((postProcess cm df formatted).1.map MRow.pid ++
     (postProcess cm df formatted).2.map MRow.pid).Perm df ∧
    (∀ r ∈ (postProcess cm df formatted).2, r.skipReason.isSome = true) := by
  have hconv : (mergedOf df formatted).filter (fun r => r.skipReason.isSome) =
      (mergedOf df formatted).filter (fun r => !(r.skipReason.isNone)) := by
    apply List.filter_congr
    intro r _
    cases r.skipReason <;> rfl
  have hperm0 : (((mergedOf df formatted).filter (fun r => r.skipReason.isNone)).map MRow.pid ++
      ((mergedOf df formatted).filter (fun r => r.skipReason.isSome)).map MRow.pid).Perm df := by
    rw [hconv, ← List.map_append]
    refine ((List.filter_append_perm (fun r => r.skipReason.isNone)
      (mergedOf df formatted)).map MRow.pid).trans ?_
    rw [mergedOf_map_pid df formatted hfmt]
  have hps := postStep_spec cm hcm
    ((mergedOf df formatted).filter (fun r => r.skipReason.isNone))
    ((mergedOf df formatted).filter (fun r => r.skipReason.isSome))
  have hperm1 := hps.1.trans hperm0
  have hnd : (((postStep cm
      ((mergedOf df formatted).filter (fun r => r.skipReason.isNone))
      ((mergedOf df formatted).filter (fun r => r.skipReason.isSome))).1.map MRow.pid ++
      (postStep cm
      ((mergedOf df formatted).filter (fun r => r.skipReason.isNone))
      ((mergedOf df formatted).filter (fun r => r.skipReason.isSome))).2.map MRow.pid)).Nodup :=
    hperm1.nodup_iff.mpr hdf
  rw [List.nodup_append] at hnd
  have hded : dedupeBy MRow.pid (postStep cm
      ((mergedOf df formatted).filter (fun r => r.skipReason.isNone))
      ((mergedOf df formatted).filter (fun r => r.skipReason.isSome))).1 =
      (postStep cm
      ((mergedOf df formatted).filter (fun r => r.skipReason.isNone))
      ((mergedOf df formatted).filter (fun r => r.skipReason.isSome))).1 :=
    dedupeBy_eq_self MRow.pid _ hnd.1
  have hkeep : ((postStep cm
      ((mergedOf df formatted).filter (fun r => r.skipReason.isNone))
      ((mergedOf df formatted).filter (fun r => r.skipReason.isSome))).1).filter
        (fun r => personaIsValid r) =
      (postStep cm
      ((mergedOf df formatted).filter (fun r => r.skipReason.isNone))
      ((mergedOf df formatted).filter (fun r => r.skipReason.isSome))).1 := by
    rw [List.filter_eq_self]
    intro r hr
    rcases hps.2.1 r hr with hr0 | ⟨m, hm, hmem⟩
    · have hmn : r.skipReason = none :=
        Option.isNone_iff_eq_none.mp (List.mem_filter.mp hr0).2
      exact merged_accept_valid df formatted hpad r (List.mem_of_mem_filter hr0) hmn
    · simp only [personaIsValid, hm]
      exact decide_eq_true hmem
  have hgoal : postProcess cm df formatted =
      ((dedupeBy MRow.pid (postStep cm
        ((mergedOf df formatted).filter (fun r => r.skipReason.isNone))
        ((mergedOf df formatted).filter (fun r => r.skipReason.isSome))).1).filter
          (fun r => personaIsValid r),
       (postStep cm
        ((mergedOf df formatted).filter (fun r => r.skipReason.isNone))
        ((mergedOf df formatted).filter (fun r => r.skipReason.isSome))).2) := rfl
  rw [hgoal, hded, hkeep]
  refine ⟨hperm1, ?_⟩
  intro r hr
  exact (List.mem_filter.mp (hps.2.2 r hr)).2

/-- C1 counterexample: the post-processing stage both drops and duplicates
ids.  Input ids ["1", "2"]; the parsed table gives id "1" the padded persona
`" Executive Sponsor "` (accepted by the stripped skip-reason test, then
silently dropped by the exact membership filter) and gives id "2" two rows,
one valid and one invalid (so "2" lands in the accepted *and* the skipped
output). -/
theorem c1_counterexample :
    "1" ∈ ["1", "2"] ∧
    "1" ∉ (postProcess (fun _ => none) ["1", "2"]
      [⟨"1", some " Executive Sponsor ", some "90"⟩,
       ⟨"2", some "Data User", some "80"⟩,
       ⟨"2", some "Bogus", some "70"⟩]).1.map MRow.pid ∧
    "1" ∉ (postProcess (fun _ => none) ["1", "2"]
      [⟨"1", some " Executive Sponsor ", some "90"⟩,
       ⟨"2", some "Data User", some "80"⟩,
       ⟨"2", some "Bogus", some "70"⟩]).2.map MRow.pid ∧
    "2" ∈ (postProcess (fun _ => none) ["1", "2"]
      [⟨"1", some " Executive Sponsor ", some "90"⟩,
       ⟨"2", some "Data User", some "80"⟩,
       ⟨"2", some "Bogus", some "70"⟩]).1.map MRow.pid ∧
    "2" ∈ (postProcess (fun _ => none) ["1", "2"]
      [⟨"1", some " Executive Sponsor ", some "90"⟩,
       ⟨"2", some "Data User", some "80"⟩,
       ⟨"2", some "Bogus", some "70"⟩]).2.map MRow.pid := by
  decide

/-- C1 amended (proved): provided the input ids are unique, the parsed
table's ids are unique, fuzzy matches come from the vocabulary (the difflib
contract), and no parsed persona is valid only after stripping, every input
id appears in exactly one of the accepted and skipped outputs, exactly once,
and every skipped row carries a skip reason. -/
theorem c1_amended (cm : String → Option String) (df : List String)
    (formatted : List FRow)
    (hcm : ∀ p m, cm p = some m → m ∈ VALID_PERSONAS)
    (hdf : df.Nodup)
    (hfmt : (formatted.map FRow.pid).Nodup)
    (hpad : ∀ fr ∈ formatted, ∀ p, fr.persona = some p →
      pyStrip p ∈ VALID_PERSONAS → pyStrip p = p) :
    (∀ id, (id ∈ (postProcess cm df formatted).1.map MRow.pid ∨
            id ∈ (postProcess cm df formatted).2.map MRow.pid) ↔ id ∈ df) ∧
    (∀ id, ¬(id ∈ (postProcess cm df formatted).1.map MRow.pid ∧
             id ∈ (postProcess cm df formatted).2.map MRow.pid)) ∧
    ((postProcess cm df formatted).1.map MRow.pid).Nodup ∧
    ((postProcess cm df formatted).2.map MRow.pid).Nodup ∧
    (∀ r ∈ (postProcess cm df formatted).2, r.skipReason.isSome = true) := by
  obtain ⟨hperm, hsome⟩ := postProcess_spec cm df formatted hcm hdf hfmt hpad
  have hnd := hperm.nodup_iff.mpr hdf
  rw [List.nodup_append] at hnd
  refine ⟨?_, ?_, hnd.1, hnd.2.1, hsome⟩
  · intro id
    rw [← List.mem_append]
    exact hperm.mem_iff
  · intro id hid
    exact hnd.2.2 hid.1 hid.2

/-- C1 amended, witness: one input id with one valid parsed row is accepted
or skipped exactly as the amended claim states. -/
theorem c1_amended_witness :
    ("1" ∈ (postProcess (fun _ => none) ["1"]
        [⟨"1", some "Data User", some "80"⟩]).1.map MRow.pid ∨
     "1" ∈ (postProcess (fun _ => none) ["1"]
        [⟨"1", some "Data User", some "80"⟩]).2.map MRow.pid) ↔
    "1" ∈ ["1"] := by
  have h := c1_amended (fun _ => none) ["1"] [⟨"1", some "Data User", some "80"⟩]
    (by intro p m h; cases h)
    (by decide) (by decide)
    (by
      intro fr hfr p hp hmem
      rw [List.mem_singleton] at hfr
      subst hfr
      injection hp with hp'
      subst hp'
      decide)
  exact h.1 "1"

/-- Field-level description of one orchestrator pass: the dispatcher runs
over the rows still remaining, `ok_ids` is recomputed from the cumulative
results, the remaining set is updated by the set equation of the source, and
the chunk size is halved (floored) exactly when ids remain. -/
theorem passStep_fields (calls : Nat → Nat → CallOutcome) (df : List String)
    (p : Nat) (st : OrchState) :
    (passStep calls df p st).pre = st ∧
    (passStep calls df p st).passNo = p ∧
    (passStep calls df p st).dispatched =
      dispatchPass calls (df.filter (fun id => decide (id ∈ st.remaining))) st.chunk ∧
    (passStep calls df p st).okIds = okIdsOf (passStep calls df p st).post.results ∧
    (passStep calls df p st).post.results =
      st.results ++ (passStep calls df p st).dispatched.results ∧
    (passStep calls df p st).post.remaining =
      (st.remaining \ (passStep calls df p st).okIds) ∪
        (passStep calls df p st).dispatched.failed ∧
    ((passStep calls df p st).post.remaining.Nonempty →
      (passStep calls df p st).post.chunk =
        max MIN_CHUNK ((passStep calls df p st).dispatched.chunk / 2)) ∧
    (¬ (passStep calls df p st).post.remaining.Nonempty →
      (passStep calls df p st).post.chunk = (passStep calls df p st).dispatched.chunk) := by
  simp only [passStep]
  refine ⟨trivial, trivial, trivial, trivial, trivial, trivial, ?_, ?_⟩
  · intro h
    rw [if_pos h]
  · intro h
    rw [if_neg h]

/-- Every log of the orchestrator's trace satisfies the per-pass wiring of
the source: nonempty remaining set at pass start, dispatcher over the
remaining rows, cumulative `ok_ids`, the remaining-set update equation, and
the conditional chunk halving. -/
theorem runAux_log_spec (calls : Nat → Nat → Nat → CallOutcome) (df : List String) :
    ∀ (fuel p : Nat) (st : OrchState),
      ∀ log ∈ (runAux calls df fuel p st).2,
        log.pre.remaining ≠ ∅ ∧
        log.dispatched = dispatchPass (calls log.passNo)
          (df.filter (fun id => decide (id ∈ log.pre.remaining))) log.pre.chunk ∧
        log.okIds = okIdsOf log.post.results ∧
        log.post.results = log.pre.results ++ log.dispatched.results ∧
        log.post.remaining =
          (log.pre.remaining \ log.okIds) ∪ log.dispatched.failed ∧
        (log.post.remaining.Nonempty →
          log.post.chunk = max MIN_CHUNK (log.dispatched.chunk / 2)) := by
  intro fuel
  induction fuel with
  | zero =>
    intro p st log hlog
    simp [runAux] at hlog
  | succ n ih =>
    intro p st log hlog
    by_cases hre : st.remaining = ∅
    · simp [runAux, hre] at hlog
    · simp only [runAux, if_neg hre, List.mem_cons] at hlog
      rcases hlog with rfl | hlog
      · obtain ⟨h1, h2, h3, h4, h5, h6, h7, _⟩ := passStep_fields (calls p) df p st
        rw [h1] at *
        exact ⟨hre, by rw [h2]; exact h3, h4, by rw [h1] at h5; exact h5, by rw [h1] at h6; exact h6, h7⟩
      · exact ih (p + 1) _ log hlog

/-- The orchestrator executes at most `fuel` passes, and stops early only
with an empty remaining set. -/
theorem runAux_len (calls : Nat → Nat → Nat → CallOutcome) (df : List String) :
    ∀ (fuel p : Nat) (st : OrchState),
      (runAux calls df fuel p st).2.length ≤ fuel ∧
      ((runAux calls df fuel p st).2.length < fuel →
        (runAux calls df fuel p st).1.remaining = ∅) := by
  intro fuel
  induction fuel with
  | zero =>
    intro p st
    exact ⟨le_rfl, fun h => absurd h (lt_irrefl 0)⟩
  | succ n ih =>
    intro p st
    by_cases hre : st.remaining = ∅
    · simp only [runAux, if_pos hre]
      exact ⟨Nat.zero_le _, fun _ => hre⟩
    · simp only [runAux, if_neg hre, List.length_cons]
      obtain ⟨ih1, ih2⟩ := ih (p + 1) (passStep (calls p) df p st).post
      exact ⟨Nat.succ_le_succ ih1, fun h => ih2 (Nat.lt_of_succ_lt_succ h)⟩

/-- Failed ids of a dispatch pass are ids of the dispatched rows. -/
theorem dispatchAux_failed_sub (calls : Nat → Nat → CallOutcome) (rows : List String) :
    ∀ (fuel i c : Nat), (dispatchAux calls rows fuel i c).failed ⊆ rows.toFinset := by
  intro fuel
  induction fuel with
  | zero =>
    intro i c
    simp [dispatchAux]
  | succ n ih =>
    intro i c
    by_cases hi : i < rows.length
    · cases hrun : (call_with_retries (calls i) c).result with
      | ok rc =>
        simp only [dispatchAux, if_pos hi, hrun]
        exact ih _ _
      | error e =>
        simp only [dispatchAux, if_pos hi, hrun]
        intro x hx
        rw [Finset.mem_union] at hx
        rcases hx with hx | hx
        · rw [List.mem_toFinset] at hx
          rw [List.mem_toFinset]
          exact List.drop_subset i rows (List.take_subset _ _ hx)
        · exact ih _ _ hx
    · simp only [dispatchAux, if_neg hi]
      simp

/-- The remaining-id set of the orchestrator stays inside the input id
set. -/
theorem runAux_remaining_sub (calls : Nat → Nat → Nat → CallOutcome)
    (df : List String) :
    ∀ (fuel p : Nat) (st : OrchState), st.remaining ⊆ df.toFinset →
      (runAux calls df fuel p st).1.remaining ⊆ df.toFinset := by
  intro fuel
  induction fuel with
  | zero =>
    intro p st h
    exact h
  | succ n ih =>
    intro p st h
    by_cases hre : st.remaining = ∅
    · simp only [runAux, if_pos hre]
      exact h
    · simp only [runAux, if_neg hre]
      apply ih
      show ((st.remaining \ _) ∪ _) ⊆ df.toFinset
      intro x hx
      rw [Finset.mem_union] at hx
      rcases hx with hx | hx
      · exact h (Finset.mem_sdiff.mp hx).1
      · have hsub := dispatchAux_failed_sub (calls p)
          (df.filter (fun id => decide (id ∈ st.remaining)))
          (df.filter (fun id => decide (id ∈ st.remaining))).length 0 st.chunk
        have hx' := hsub hx
        rw [List.mem_toFinset] at hx'
        rw [List.mem_toFinset]
        exact List.mem_of_mem_filter hx'

/-- A row of the invalid-persona list whose probe string the matcher does
not repair stays in the still-invalid output, unchanged. -/
theorem fuzzyLoop_unmatched_mem (cm : String → Option String) :
    ∀ (l : List MRow) (r : MRow), r ∈ l → cm (pyStrip (personaStr r)) = none →
      r ∈ (fuzzyLoop cm l).2 := by
  intro l
  induction l with
  | nil =>
    intro r hr _
    cases hr
  | cons r0 rs ih =>
    intro r hr hcm
    rcases List.mem_cons.mp hr with rfl | hr
    · by_cases hp : pyStrip (personaStr r) = ""
      · simp only [fuzzyLoop, hp, reduceIte]
        exact List.mem_cons_self _ _
      · simp only [fuzzyLoop, hp, reduceIte, hcm]
        exact List.mem_cons_self _ _
    · have hmem := ih r hr hcm
      by_cases hp : pyStrip (personaStr r0) = ""
      · simp only [fuzzyLoop, hp, reduceIte]
        exact List.mem_cons_of_mem r0 hmem
      · cases hc : cm (pyStrip (personaStr r0)) with
        | some m =>
          simp only [fuzzyLoop, hp, reduceIte, hc]
          exact hmem
        | none =>
          simp only [fuzzyLoop, hp, reduceIte, hc]
          exact List.mem_cons_of_mem r0 hmem

/-- A skipped row whose rendered persona the matcher does not repair is
returned among the still-skipped rows, whatever its skip reason. -/
theorem fuzzy_keeps_unmatched (cm : String → Option String) (skipped : List MRow) :
    ∀ r ∈ skipped, cm (pyStrip (personaStr r)) = none →
      r ∈ (fuzzy_match_invalid_personas cm skipped).2 := by
  intro r hr hcm
  cases hinv : invalidReason r with
  | false => exact fuzzy_other_mem cm skipped r hr hinv
  | true =>
    by_cases h0 : skipped = ([] : List MRow)
    · subst h0
      cases hr
    · by_cases h1 : skipped.filter (fun r => invalidReason r) = []
      · simp only [fuzzy_match_invalid_personas, h0, h1, reduceIte]
        exact hr
      · simp only [fuzzy_match_invalid_personas, h0, h1, reduceIte,
          List.mem_append]
        right
        exact fuzzyLoop_unmatched_mem cm _ r
          (List.mem_filter.mpr ⟨hr, by rw [hinv]⟩) hcm

/-- A skipped row whose rendered persona the matcher does not repair stays
on the skipped side of the fuzzy-correction stage. -/
theorem postStep_keeps_unmatched (cm : String → Option String)
    (final0 skipped0 : List MRow) (r : MRow) (hr : r ∈ skipped0)
    (hcm : cm (pyStrip (personaStr r)) = none) :
    r ∈ (postStep cm final0 skipped0).2 := by
  by_cases h0 : skipped0 = []
  · subst h0
    cases hr
  · by_cases h1 : (fuzzy_match_invalid_personas cm skipped0).1 = []
    · simp only [postStep, h0, h1, reduceIte]
      exact hr
    · simp only [postStep, h0, h1, reduceIte]
      exact fuzzy_keeps_unmatched cm skipped0 r hr hcm

/-- C6 counterexample: an input id whose every pass yields the invalid
persona "Bogus" remains in the remaining set at termination, but is skipped
with reason "Invalid persona: Bogus" — not with a no-LLM-response reason as
the claim states. -/
theorem c6_counterexample :
    "1" ∈ (pipeline (fun _ _ _ => CallOutcome.ok [⟨"1", some "Bogus", some "50"⟩])
      (fun _ => none) ["1"]).2.2.remaining ∧
    (∃ r ∈ (pipeline (fun _ _ _ => CallOutcome.ok [⟨"1", some "Bogus", some "50"⟩])
      (fun _ => none) ["1"]).2.1, r.pid = "1") ∧
    (∀ r ∈ (pipeline (fun _ _ _ => CallOutcome.ok [⟨"1", some "Bogus", some "50"⟩])
      (fun _ => none) ["1"]).2.1, r.pid = "1" →
        r.skipReason = some "Invalid persona: Bogus") := by
  decide

/-- C6 amended (proved): every executed pass updates
`remaining := (remaining - ok_ids) ∪ failed_ids` with `ok_ids` the valid-persona
ids of the (cumulative, duplicate-dropped) parsed output and `failed_ids`
the dispatcher's exhausted-chunk ids; the chunk is halved (floored at
`MIN_CHUNK`) when ids remain; at most `MAX_PASSES` passes run and stopping
earlier means no ids remain; and an id still remaining at termination *with
no parsed output row at all* ends with a NaN merged persona, which pandas
renders as the truthy string "nan", so — given the fuzzy matcher yields no
match for "nan", as difflib does at the default cutoff — it is skipped with
reason "Invalid persona: nan", not with a no-LLM-response reason.  (A
remaining id whose parsed persona is invalid is likewise skipped with an
invalid-persona reason, or corrected by fuzzy matching.) -/
theorem c6_amended (calls : Nat → Nat → Nat → CallOutcome)
    (cm : String → Option String) (df : List String) :
    (∀ log ∈ (runPasses calls df).2,
      log.pre.remaining ≠ ∅ ∧
      log.post.remaining = (log.pre.remaining \ log.okIds) ∪ log.dispatched.failed ∧
      log.okIds = okIdsOf log.post.results ∧
      log.dispatched = dispatchPass (calls log.passNo)
        (df.filter (fun id => decide (id ∈ log.pre.remaining))) log.pre.chunk ∧
      (log.post.remaining.Nonempty →
        log.post.chunk = max MIN_CHUNK (log.dispatched.chunk / 2))) ∧
    ((runPasses calls df).2.length ≤ MAX_PASSES ∧
     ((runPasses calls df).2.length < MAX_PASSES →
       (runPasses calls df).1.remaining = ∅)) ∧
    (∀ id ∈ (pipeline calls cm df).2.2.remaining,
      (runPasses calls df).1.results.flatten.filter (fun fr => fr.pid = id) = [] →
      cm "nan" = none →
      ∃ r ∈ (pipeline calls cm df).2.1, r.pid = id ∧
        r.skipReason = some "Invalid persona: nan") := by
  refine ⟨?_, ?_, ?_⟩
  · intro log hlog
    obtain ⟨a, b, c, d, e, f⟩ :=
      runAux_log_spec calls df MAX_PASSES 1 ⟨df.toFinset, MAX_CHUNK, []⟩ log hlog
    exact ⟨a, e, c, b, f⟩
  · exact runAux_len calls df MAX_PASSES 1 ⟨df.toFinset, MAX_CHUNK, []⟩
  · intro id hid hflt hnan
    have hidf : id ∈ df := by
      have hsub := runAux_remaining_sub calls df MAX_PASSES 1
        ⟨df.toFinset, MAX_CHUNK, []⟩ (Finset.Subset.refl _)
      exact List.mem_toFinset.mp (hsub hid)
    have hdet : mergedSkipReason none = some "Invalid persona: nan" := by decide
    have hrow := mergeLeft_unmatched df
      ((runPasses calls df).1.results.flatten) id hidf hflt
    have hmrow : (⟨id, none, none, some "Invalid persona: nan"⟩ : MRow) ∈
        mergedOf df ((runPasses calls df).1.results.flatten) := by
      rw [mergedOf, List.mem_map]
      refine ⟨⟨id, none, none, none⟩, hrow, ?_⟩
      simp [hdet]
    have hsk : (⟨id, none, none, some "Invalid persona: nan"⟩ : MRow) ∈
        (mergedOf df ((runPasses calls df).1.results.flatten)).filter
          (fun r => r.skipReason.isSome) :=
      List.mem_filter.mpr ⟨hmrow, rfl⟩
    have hprobe : cm (pyStrip (personaStr
        (⟨id, none, none, some "Invalid persona: nan"⟩ : MRow))) = none := by
      have hps : pyStrip (personaStr
          (⟨id, none, none, some "Invalid persona: nan"⟩ : MRow)) = "nan" := by
        show pyStrip ((none : Option String).getD "nan") = "nan"
        decide
      rw [hps]
      exact hnan
    have hstill := postStep_keeps_unmatched cm
      ((mergedOf df ((runPasses calls df).1.results.flatten)).filter
        (fun r => r.skipReason.isNone))
      ((mergedOf df ((runPasses calls df).1.results.flatten)).filter
        (fun r => r.skipReason.isSome))
      _ hsk hprobe
    exact ⟨⟨id, none, none, some "Invalid persona: nan"⟩, hstill, rfl, rfl⟩

/-- C6 amended, witness: a run whose model never answers leaves the single
input id remaining with a NaN merged persona, and post-processing skips it
with "Invalid persona: nan". -/
theorem c6_amended_witness :
    ∃ r ∈ (pipeline (fun _ _ _ => CallOutcome.ok []) (fun _ => none) ["1"]).2.1,
      r.pid = "1" ∧ r.skipReason = some "Invalid persona: nan" := by
  have h := (c6_amended (fun _ _ _ => CallOutcome.ok []) (fun _ => none) ["1"]).2.2
  exact h "1" (by decide) (by decide) rfl

/-- Dict lookup after inserting a binding for the same key. -/
theorem lookup_cons_self {β : Type} (k : String) (v : β) (t : List (String × β)) :
    ((k, v) :: t).lookup k = some v := by
  simp [List.lookup]

/-- Dict lookup after inserting a binding for a different key. -/
theorem lookup_cons_ne {β : Type} (k k' : String) (v : β) (t : List (String × β))
    (h : k' ≠ k) : ((k, v) :: t).lookup k' = t.lookup k' := by
  have hb : (k' == k) = false := beq_eq_false_iff_ne.mpr h
  simp [List.lookup, hb]

/-- An error message built by the non-200 branch starts with the status
marker. -/
theorem strStartsWith_httpmsg (a b : String) :
    strStartsWith (a ++ ":") (a ++ ": " ++ b) = true := by
  unfold strStartsWith
  rw [List.isPrefixOf_iff_prefix]
  refine ⟨' ' :: b.data, ?_⟩
  simp [String.data_append]

/-- Behaviour of one parse-loop iteration on a line whose inner status code
is computable: the line never raises; a non-200 status inserts an error
entry naming that status under the line's id; a 200 status with a
well-formed body inserts the content under the line's id; all other dict
keys are untouched. -/
theorem processLine_spec (out : List (String × Json)) (errs : List (String × String))
    (obj : Json) (h : (innerStatus obj).isSome = true) :
    ∃ out' errs', processLine out errs obj = Except.ok (out', errs') ∧
      (∀ s, innerStatus obj = some s → s ≠ 200 →
        out' = out ∧ ∃ m, errs' = (cidOf obj, m) :: errs ∧
          strStartsWith ("HTTP " ++ toString s ++ ":") m = true) ∧
      (innerStatus obj = some 200 → ∀ c, contentOf obj = some c →
        out' = (cidOf obj, c) :: out ∧ errs' = errs) ∧
      (∀ k, k ≠ cidOf obj →
        out'.lookup k = out.lookup k ∧ errs'.lookup k = errs.lookup k) := by
  cases obj with
  | null => simp [innerStatus] at h
  | jbool b => simp [innerStatus] at h
  | jnum n => simp [innerStatus] at h
  | jstr s => simp [innerStatus] at h
  | jarr xs => simp [innerStatus] at h
  | jobj fs =>
    cases hresp : (lookupField fs "response").getD (Json.jobj []) with
    | null => simp [innerStatus, hresp] at h
    | jbool b => simp [innerStatus, hresp] at h
    | jnum n => simp [innerStatus, hresp] at h
    | jstr s => simp [innerStatus, hresp] at h
    | jarr xs => simp [innerStatus, hresp] at h
    | jobj rfs =>
      cases hsc : pyInt (if pyTruthy ((lookupField rfs "status_code").getD (Json.jnum 0))
          then (lookupField rfs "status_code").getD (Json.jnum 0) else Json.jnum 0) with
      | none => simp [innerStatus, hresp, hsc] at h
      | some status =>
        have his : innerStatus (Json.jobj fs) = some status := by
          simp [innerStatus, hresp, hsc]
        by_cases hs : status = 200
        · subst hs
          cases hcont : getContent (Json.jobj rfs) with
          | some c =>
            refine ⟨(cidOf (Json.jobj fs), c) :: out, errs, ?_, ?_, ?_, ?_⟩
            · simp only [processLine, hresp, hsc, hcont, reduceIte]
              rfl
            · intro s hsi hne
              rw [his] at hsi
              injection hsi with hsi'
              exact absurd hsi'.symm hne
            · intro _ c' hc'
              have hg : getContent (Json.jobj rfs) = some c' := by
                simpa [contentOf, hresp] using hc'
              rw [hcont] at hg
              injection hg with hg'
              subst hg'
              exact ⟨rfl, rfl⟩
            · intro k hk
              exact ⟨lookup_cons_ne _ k c out hk, rfl⟩
          | none =>
            refine ⟨out, (cidOf (Json.jobj fs), "Malformed success body") :: errs,
              ?_, ?_, ?_, ?_⟩
            · simp only [processLine, hresp, hsc, hcont, reduceIte]
              rfl
            · intro s hsi hne
              rw [his] at hsi
              injection hsi with hsi'
              exact absurd hsi'.symm hne
            · intro _ c' hc'
              have hg : getContent (Json.jobj rfs) = some c' := by
                simpa [contentOf, hresp] using hc'
              rw [hcont] at hg
              cases hg
            · intro k hk
              exact ⟨rfl, lookup_cons_ne _ k _ errs hk⟩
        · refine ⟨out, (cidOf (Json.jobj fs),
            "HTTP " ++ toString status ++ ": " ++ pyStr (errorBranchMsg rfs)) :: errs,
            ?_, ?_, ?_, ?_⟩
          · simp only [processLine, hresp, hsc]
            rw [if_neg hs]
            rfl
          · intro s hsi hne
            rw [his] at hsi
            injection hsi with hsi'
            subst hsi'
            refine ⟨rfl, "HTTP " ++ toString status ++ ": " ++ pyStr (errorBranchMsg rfs),
              rfl, ?_⟩
            have := strStartsWith_httpmsg ("HTTP " ++ toString status)
              (pyStr (errorBranchMsg rfs))
            rw [String.append_assoc] at this
            exact this
          · intro h200
            rw [his] at h200
            injection h200 with hq
            exact absurd hq hs
          · intro k hk
            exact ⟨rfl, lookup_cons_ne _ k _ errs hk⟩

/-- Lifting of the per-line behaviour over the whole parse loop, threading
the two accumulator dicts. -/
theorem parseBatchAux_spec (lines : List Json) :
    ∀ (out : List (String × Json)) (errs : List (String × String)),
      (∀ l ∈ lines, (innerStatus l).isSome = true) →
      (lines.map cidOf).Nodup →
      ∃ out' errs', parseBatchAux lines out errs = .ok (out', errs') ∧
        (∀ l ∈ lines, ∀ s, innerStatus l = some s → s ≠ 200 →
          ∃ m, errs'.lookup (cidOf l) = some m ∧
            strStartsWith ("HTTP " ++ toString s ++ ":") m = true) ∧
        (∀ l ∈ lines, innerStatus l = some 200 → ∀ c, contentOf l = some c →
          out'.lookup (cidOf l) = some c) ∧
        (∀ k, k ∉ lines.map cidOf →
          out'.lookup k = out.lookup k ∧ errs'.lookup k = errs.lookup k) := by
  induction lines with
  | nil =>
    intro out errs _ _
    exact ⟨out, errs, rfl, by simp, by simp, fun k _ => ⟨rfl, rfl⟩⟩
  | cons l0 rest ih =>
    intro out errs hws hnd
    obtain ⟨out1, errs1, hpl, hne, h200, hfr1⟩ :=
      processLine_spec out errs l0 (hws l0 (List.mem_cons_self l0 rest))
    simp only [List.map_cons, List.nodup_cons] at hnd
    obtain ⟨out', errs', hrec, hrest_ne, hrest_200, hframe⟩ :=
      ih out1 errs1 (fun l hl => hws l (List.mem_cons_of_mem l0 hl)) hnd.2
    have hfr : out'.lookup (cidOf l0) = out1.lookup (cidOf l0) ∧
        errs'.lookup (cidOf l0) = errs1.lookup (cidOf l0) := hframe (cidOf l0) hnd.1
    refine ⟨out', errs', ?_, ?_, ?_, ?_⟩
    · simp only [parseBatchAux, hpl]
      exact hrec
    · intro l hl s hsi hne200
      rcases List.mem_cons.mp hl with rfl | hl
      · obtain ⟨hout1, m, herrs1, hpre⟩ := hne s hsi hne200
        refine ⟨m, ?_, hpre⟩
        rw [hfr.2, herrs1]
        exact lookup_cons_self (cidOf l) m errs
      · exact hrest_ne l hl s hsi hne200
    · intro l hl hsi c hc
      rcases List.mem_cons.mp hl with rfl | hl
      · obtain ⟨hout1, herrs1⟩ := h200 hsi c hc
        rw [hfr.1, hout1]
        exact lookup_cons_self (cidOf l) c out
      · exact hrest_200 l hl hsi c hc
    · intro k hk
      simp only [List.map_cons, List.mem_cons] at hk
      push_neg at hk
      obtain ⟨hfo, hfe⟩ := hframe k (by simpa using hk.2)
      obtain ⟨hgo, hge⟩ := hfr1 k hk.1
      exact ⟨hfo.trans hgo, hfe.trans hge⟩

/-- C8 (confirmed): on a batch-output whose lines carry computable inner
status codes and distinct caller-assigned ids, the parser raises no
exception; every line with a non-200 inner status routes its id to the
errors map with a message naming that HTTP status, and every status-200 line
with a well-formed body maps its id to the response content in the results
map. -/
theorem c8_batch_parse (lines : List Json)
    (hws : ∀ l ∈ lines, (innerStatus l).isSome = true)
    (hnd : (lines.map cidOf).Nodup) :
    ∃ out errs, parse_batch_output_jsonl lines = .ok (out, errs) ∧
      (∀ l ∈ lines, ∀ s, innerStatus l = some s → s ≠ 200 →
        ∃ m, errs.lookup (cidOf l) = some m ∧
          strStartsWith ("HTTP " ++ toString s ++ ":") m = true) ∧
      (∀ l ∈ lines, innerStatus l = some 200 → ∀ c, contentOf l = some c →
        out.lookup (cidOf l) = some c) := by
  obtain ⟨out, errs, hok, hne, h200, _⟩ := parseBatchAux_spec lines [] [] hws hnd
  exact ⟨out, errs, hok, hne, h200⟩

/-- C8 witness: a two-line output — id "a" failed with HTTP 500 and id "b"
succeeded with content "yay" — parses without raising, with "a" in the
errors map under an "HTTP 500:" message and "b" mapped to its content. -/
theorem c8_batch_parse_witness :
    ∃ out errs, parse_batch_output_jsonl
      [Json.jobj [("custom_id", Json.jstr "a"),
        ("response", Json.jobj [("status_code", Json.jnum 500),
          ("body", Json.jobj [("error",
            Json.jobj [("message", Json.jstr "boom")])])])],
       Json.jobj [("custom_id", Json.jstr "b"),
        ("response", Json.jobj [("status_code", Json.jnum 200),
          ("body", Json.jobj [("choices", Json.jarr [Json.jobj [("message",
            Json.jobj [("content", Json.jstr "yay")])]])])])]] = .ok (out, errs) ∧
      (∀ l ∈ [Json.jobj [("custom_id", Json.jstr "a"),
        ("response", Json.jobj [("status_code", Json.jnum 500),
          ("body", Json.jobj [("error",
            Json.jobj [("message", Json.jstr "boom")])])])],
       Json.jobj [("custom_id", Json.jstr "b"),
        ("response", Json.jobj [("status_code", Json.jnum 200),
          ("body", Json.jobj [("choices", Json.jarr [Json.jobj [("message",
            Json.jobj [("content", Json.jstr "yay")])]])])])]],
        ∀ s, innerStatus l = some s → s ≠ 200 →
        ∃ m, errs.lookup (cidOf l) = some m ∧
          strStartsWith ("HTTP " ++ toString s ++ ":") m = true) ∧
      (∀ l ∈ [Json.jobj [("custom_id", Json.jstr "a"),
        ("response", Json.jobj [("status_code", Json.jnum 500),
          ("body", Json.jobj [("error",
            Json.jobj [("message", Json.jstr "boom")])])])],
       Json.jobj [("custom_id", Json.jstr "b"),
        ("response", Json.jobj [("status_code", Json.jnum 200),
          ("body", Json.jobj [("choices", Json.jarr [Json.jobj [("message",
            Json.jobj [("content", Json.jstr "yay")])]])])])]],
        innerStatus l = some 200 → ∀ c, contentOf l = some c →
        out.lookup (cidOf l) = some c) := by
  have hcid : List.map cidOf
      [Json.jobj [("custom_id", Json.jstr "a"),
        ("response", Json.jobj [("status_code", Json.jnum 500),
          ("body", Json.jobj [("error",
            Json.jobj [("message", Json.jstr "boom")])])])],
       Json.jobj [("custom_id", Json.jstr "b"),
        ("response", Json.jobj [("status_code", Json.jnum 200),
          ("body", Json.jobj [("choices", Json.jarr [Json.jobj [("message",
            Json.jobj [("content", Json.jstr "yay")])]])])])]] = ["a", "b"] := by
    simp [cidOf, lookupField, pyStr]
  exact c8_batch_parse _ (by decide) (by rw [hcid]; decide)

end PersonaClassifier
